import Mathlib

/-!
Verification of the provider aggregation engine of the `mcp-service-public-bj`
repository, as a shallow embedding of `src/server/registry.py`,
`src/server/search.py`, `src/server/providers/base.py` and
`src/server/tools.py`.

Modelling conventions:
* Python `dict` is modelled as an insertion-ordered association list with
  unique keys; assigning to an existing key updates the value in place
  (keeping its position), assigning to a fresh key appends at the end.
* `collections.defaultdict(list)` is modelled the same way, with reads going
  through `dgetList` (missing key reads as `[]`, matching `.get(k, [])`).
* Python `str` is Lean `String`; `str.lower` / `str.strip` / `str.split` are
  modelled character-wise (exact on ASCII; Lean's `Char.toLower` and
  `Char.isWhitespace` stand in for Python's Unicode versions).
* `rapidfuzz.fuzz.partial_ratio` is an external library function (not part of
  this repository); it is modelled as an explicit parameter
  `fr : String → String → ℚ` (its float scores modelled as rationals).
* Python float scores are modelled as `ℚ`.
* `async` functions suspend only at provider I/O; the per-candidate provider
  calls (`_search_services_single` / `_list_categories_single`) are modelled
  by their observable outcome: either an exception (`Except.error` with the
  stringified message) or a returned payload.
* `pydantic`'s `model_dump`/`model_validate` pair is external and modelled as
  the identity on the structured values.
-/

namespace SPB

/-- Association-list model of a Python `dict`: lookup by key. -/
def dlookup {κ α : Type} [DecidableEq κ] : List (κ × α) → κ → Option α
  | [], _ => none
  | (k', v) :: rest, k => if k' = k then some v else dlookup rest k

/-- Association-list model of Python `d[k] = v`: update in place if the key
is present, append at the end otherwise. -/
def dinsert {κ α : Type} [DecidableEq κ] : List (κ × α) → κ → α → List (κ × α)
  | [], k, v => [(k, v)]
  | (k', v') :: rest, k, v =>
      if k' = k then (k', v) :: rest else (k', v') :: dinsert rest k v

/-- Model of `defaultdict(list)`'s `d[k].append(v)`. -/
def dappend {κ : Type} [DecidableEq κ] {α : Type} :
    List (κ × List α) → κ → α → List (κ × List α)
  | [], k, v => [(k, [v])]
  | (k', vs) :: rest, k, v =>
      if k' = k then (k', vs ++ [v]) :: rest else (k', vs) :: dappend rest k v

/-- Model of `d[k] = d.get(k, 0) + 1`. -/
def dbump {κ : Type} [DecidableEq κ] : List (κ × Nat) → κ → List (κ × Nat)
  | [], k => [(k, 1)]
  | (k', n) :: rest, k =>
      if k' = k then (k', n + 1) :: rest else (k', n) :: dbump rest k

/-- Model of `d.get(k, [])`. -/
def dgetList {κ : Type} [DecidableEq κ] {α : Type}
    (m : List (κ × List α)) (k : κ) : List α :=
  (dlookup m k).getD []

/-- Python `str.lower` (`Char.toLower` is exact on the ASCII range). -/
def strLower (s : String) : String := String.mk (s.toList.map Char.toLower)

/-- Splits a character list into its maximal runs of non-separator
characters, dropping separators — the combined effect of Python's
`str.split` family on the separator class `isSep`. -/
def charRuns (isSep : Char → Bool) : List Char → List Char → List (List Char)
  | [], acc => if acc = [] then [] else [acc.reverse]
  | c :: rest, acc =>
      if isSep c then
        (if acc = [] then charRuns isSep rest [] else acc.reverse :: charRuns isSep rest [])
      else charRuns isSep rest (c :: acc)

/-- `selectors.normalise_whitespace`: `" ".join(value.split())`. -/
def normalise_whitespace (s : String) : String :=
  String.intercalate " " ((charRuns (fun c => c.isWhitespace) s.toList []).map String.mk)

/-- Python `str.strip`, used only for the emptiness test `not query.strip()`. -/
def pyStrip (s : String) : String :=
  String.mk (((s.toList.dropWhile (fun c => c.isWhitespace)).reverse.dropWhile
      (fun c => c.isWhitespace)).reverse)

/-- Python truthiness of an optional string (`None` and `""` are falsy). -/
def isTruthy : Option String → Bool
  | none => false
  | some s => !(s = "")

/-! ## Data models (`src/server/models.py`) -/

/-- `models.Category`. -/
structure Category where
  id : String
  name : String
  url : String
  provider_id : String
  description : Option String
  parent_id : Option String
  order : Option Int
deriving DecidableEq

/-- `models.Step`. -/
structure Step where
  title : String
  content : String
deriving DecidableEq

/-- `models.Requirement`. -/
structure Requirement where
  title : String
  content : Option String
deriving DecidableEq

/-- `models.DocumentLink`. -/
structure DocumentLink where
  title : String
  url : Option String
  document_type : Option String
deriving DecidableEq

/-- `models.ContactPoint`. -/
structure ContactPoint where
  label : String
  value : Option String
deriving DecidableEq

/-- `models.ServiceSummary` (the float `score` is modelled as `ℚ`). -/
structure ServiceSummary where
  id : String
  title : String
  url : String
  provider_id : String
  category_ids : List String
  excerpt : Option String
  score : Option ℚ
deriving DecidableEq

/-- `models.ServiceDetails` (extends `ServiceSummary`; the `datetime`
`last_updated` is modelled by its serialized string). -/
structure ServiceDetails extends ServiceSummary where
  summary : Option String
  last_updated : Option String
  steps : List Step
  requirements : List Requirement
  documents : List DocumentLink
  costs : List String
  processing_time : Option String
  contacts : List ContactPoint
  external_links : List DocumentLink
deriving DecidableEq

/-- `registry.SelectorProfile`. -/
structure SelectorProfile where
  service_id : String
  css_selectors : List (String × String)
  metadata : List (String × String)
deriving DecidableEq

/-! ## Catalog store (`src/server/registry.py`) -/

/-- `registry.ProviderCatalog`. -/
structure ProviderCatalog where
  provider_id : String
  categories : List (String × Category)
  services : List (String × ServiceSummary)
  service_details : List (String × ServiceDetails)
  selector_profiles : List (String × SelectorProfile)
  category_children : List (Option String × List String)
  services_by_category : List (String × List String)
deriving DecidableEq

/-- A freshly constructed `ProviderCatalog(provider_id=pid)` (all dataclass
fields default to empty collections). -/
def ProviderCatalog.empty (pid : String) : ProviderCatalog :=
  ⟨pid, [], [], [], [], [], []⟩

/-- `ProviderCatalog.update_categories`: optionally clear, upsert each
category by id, then fully rebuild the parent→children index. -/
def ProviderCatalog.update_categories (c : ProviderCatalog)
    (cats : List Category) (replace : Bool) : ProviderCatalog :=
  let base := if replace then [] else c.categories
  let cats' := cats.foldl (fun m cat => dinsert m cat.id cat) base
  let children := (cats'.map (fun p => p.2)).foldl
      (fun m cat => dappend m cat.parent_id cat.id) []
  { c with categories := cats', category_children := children }

/-- `ProviderCatalog.update_services`: optionally clear services and prune
details to the incoming service ids, upsert each service by id, then fully
rebuild the category→services index. -/
def ProviderCatalog.update_services (c : ProviderCatalog)
    (svcs : List ServiceSummary) (replace : Bool) : ProviderCatalog :=
  let svcBase := if replace then [] else c.services
  let detBase :=
    if replace then
      c.service_details.filter (fun p => (svcs.map (fun s => s.id)).contains p.1)
    else c.service_details
  let svcs' := svcs.foldl (fun m s => dinsert m s.id s) svcBase
  let byCat := (svcs'.map (fun p => p.2)).foldl
      (fun m s => s.category_ids.foldl (fun m cid => dappend m cid s.id) m) []
  { c with services := svcs', service_details := detBase,
           services_by_category := byCat }

/-- `ProviderCatalog.set_service_details`. -/
def ProviderCatalog.set_service_details (c : ProviderCatalog)
    (detail : ServiceDetails) : ProviderCatalog :=
  { c with service_details := dinsert c.service_details detail.id detail }

/-- `ProviderCatalog.get_service_details`. -/
def ProviderCatalog.get_service_details (c : ProviderCatalog)
    (service_id : String) : Option ServiceDetails :=
  dlookup c.service_details service_id

/-- The provider-scoped snapshot document emitted by
`ProviderCatalog.to_dict` (JSON encoding of the individual models is the
external `pydantic` layer, modelled as the identity). -/
structure CatalogDoc where
  provider_id : String
  categories : List Category
  services : List ServiceSummary
  service_details : List ServiceDetails
  selector_profiles : List SelectorProfile
deriving DecidableEq

/-- `ProviderCatalog.to_dict`: dump the values of each map, in order. -/
def ProviderCatalog.to_dict (c : ProviderCatalog) : CatalogDoc :=
  ⟨c.provider_id,
   c.categories.map (fun p => p.2),
   c.services.map (fun p => p.2),
   c.service_details.map (fun p => p.2),
   c.selector_profiles.map (fun p => p.2)⟩

/-- `ProviderCatalog.from_dict`: reconstruct categories, then services, then
insert details keyed by id, then rebuild the selector-profile map. -/
def ProviderCatalog.from_dict (d : CatalogDoc) : ProviderCatalog :=
  let inst := ProviderCatalog.empty d.provider_id
  let inst := inst.update_categories d.categories true
  let inst := inst.update_services d.services false
  let inst := { inst with
    service_details :=
      d.service_details.foldl (fun m (det : ServiceDetails) => dinsert m det.id det)
        inst.service_details }
  { inst with
    selector_profiles :=
      d.selector_profiles.foldl (fun m (p : SelectorProfile) => dinsert m p.service_id p) [] }

/-- `registry.RegistryState`: all provider catalogs, keyed by provider id. -/
structure RegistryState where
  catalogs : List (String × ProviderCatalog)
deriving DecidableEq

/-- `RegistryState.ensure_catalog` — returns the catalog AND the (possibly
mutated) state: a missing provider id gets a fresh empty catalog inserted. -/
def RegistryState.ensure_catalog (st : RegistryState) (pid : String) :
    ProviderCatalog × RegistryState :=
  match dlookup st.catalogs pid with
  | some c => (c, st)
  | none =>
      let c := ProviderCatalog.empty pid
      (c, ⟨dinsert st.catalogs pid c⟩)

/-- `RegistryState.get_service_details` (calls `ensure_catalog`). -/
def RegistryState.get_service_details (st : RegistryState)
    (pid service_id : String) : Option ServiceDetails × RegistryState :=
  let (cat, st') := st.ensure_catalog pid
  (cat.get_service_details service_id, st')

/-- `RegistryState.categories_for_parent` (calls `ensure_catalog`). -/
def RegistryState.categories_for_parent (st : RegistryState)
    (pid : String) (parent_id : Option String) : List Category × RegistryState :=
  let (cat, st') := st.ensure_catalog pid
  ((dgetList cat.category_children parent_id).filterMap
      (fun cid => dlookup cat.categories cid), st')

/-- `RegistryState.services_for_category` (calls `ensure_catalog`). -/
def RegistryState.services_for_category (st : RegistryState)
    (pid category_id : String) : List ServiceSummary × RegistryState :=
  let (cat, st') := st.ensure_catalog pid
  ((dgetList cat.services_by_category category_id).filterMap
      (fun sid => dlookup cat.services sid), st')

/-- `dlookup` hits only keys of the map. -/
theorem mem_keys_of_dlookup_eq_some {κ α : Type} [DecidableEq κ]
    {m : List (κ × α)} {k : κ} {v : α} (h : dlookup m k = some v) :
    k ∈ m.map (fun p => p.1) := by
  induction m with
  | nil => simp [dlookup] at h
  | cons hd tl ih =>
    by_cases hk : hd.1 = k
    · simp [hk]
    · simp only [dlookup, hk, if_false] at h
      simpa using Or.inr (ih h)

/-- Adding a freshly visited key strictly shrinks the set of unvisited keys. -/
theorem filter_unvisited_cons_lt {keys : List String} {cid : String}
    {visited : List String} (hk : cid ∈ keys) (hv : cid ∉ visited) :
    (keys.filter (fun k => decide (¬ k ∈ cid :: visited))).length <
      (keys.filter (fun k => decide (¬ k ∈ visited))).length := by
  have hsplit : keys.filter (fun k => decide (¬ k ∈ cid :: visited)) =
      (keys.filter (fun k => decide (¬ k ∈ visited))).filter (fun k => decide (¬ k = cid)) := by
    rw [List.filter_filter]
    apply List.filter_congr
    intro x _
    by_cases h1 : x = cid <;> by_cases h2 : x ∈ visited <;> simp [h1, h2]
  rw [hsplit]
  rw [List.length_filter_lt_length_iff_exists]
  exact ⟨cid, by simp [hk, hv]⟩

/-- The `while` loop body of `RegistryState.breadcrumb`: walk the parent
chain, guarding against cycles with a visited set, collecting the path
leaf-first, and returning it reversed (root→leaf) on any exit. -/
def breadcrumbGo (cats : List (String × Category)) (current : Option String)
    (visited : List String) (path : List Category) : List Category :=
  match current with
  | none => path.reverse
  | some cid =>
    if cid = "" then path.reverse
    else if hvis : cid ∈ visited then path.reverse
    else
      match hlook : dlookup cats cid with
      | none => path.reverse
      | some cat => breadcrumbGo cats cat.parent_id (cid :: visited) (path ++ [cat])
termination_by ((cats.map (fun p => p.1)).filter (fun k => decide (¬ k ∈ visited))).length
decreasing_by
  exact filter_unvisited_cons_lt (mem_keys_of_dlookup_eq_some hlook) hvis

/-- `RegistryState.breadcrumb` (calls `ensure_catalog`). -/
def RegistryState.breadcrumb (st : RegistryState) (pid category_id : String) :
    List Category × RegistryState :=
  let (cat, st') := st.ensure_catalog pid
  (breadcrumbGo cat.categories (some category_id) [] [], st')

/-- The snapshot document of `RegistryState.to_dict`
(`{"providers": [...]}`). -/
structure RegistryDoc where
  providers : List CatalogDoc
deriving DecidableEq

/-- `RegistryState.to_dict`. -/
def RegistryState.to_dict (st : RegistryState) : RegistryDoc :=
  ⟨(st.catalogs.map (fun p => p.2)).map ProviderCatalog.to_dict⟩

/-- `RegistryState.from_dict`: rebuild each catalog and key it by the
catalog's own `provider_id`. -/
def RegistryState.from_dict (d : RegistryDoc) : RegistryState :=
  ⟨d.providers.foldl
      (fun m doc =>
        let c := ProviderCatalog.from_dict doc
        dinsert m c.provider_id c) []⟩

/-! ## Search index (`src/server/search.py`) -/

/-- Python's Unicode `\w` class as used by `TOKEN_PATTERN`. Exact on ASCII
(alphanumeric or underscore); codepoints above `0x7F` are treated as word
characters, which agrees with Python on the accented letters occurring in
this repository's data. -/
def isWordCharPy (c : Char) : Bool :=
  c.isAlphanum || c = '_' || decide (0x7F < c.toNat)

/-- `search._tokenise`: lower-case, replace runs of non-word characters by
spaces (the `TOKEN_PATTERN.sub`), split, and drop empty tokens — i.e. the
maximal word-character runs of the normalised lower-cased text. -/
def tokenise (text : String) : List String :=
  let cleaned := (strLower (normalise_whitespace text)).toList.map
      (fun c => if isWordCharPy c then c else ' ')
  (charRuns (fun c => c = ' ') cleaned []).map String.mk

/-- Python `set.add` on a set modelled as an insertion-ordered
duplicate-free list. -/
def setAdd (s : List String) (x : String) : List String :=
  if x ∈ s then s else s ++ [x]

/-- A Python `set(...)` built from a list (insertion-ordered, deduplicated). -/
def listToSet (l : List String) : List String := l.foldl setAdd []

/-- `self._index.setdefault(token, set()).add(service.id)`. -/
def dSetAdd : List (String × List String) → String → String → List (String × List String)
  | [], t, sid => [(t, [sid])]
  | (t', ids) :: rest, t, sid =>
      if t' = t then (t', setAdd ids sid) :: rest else (t', ids) :: dSetAdd rest t sid

/-- `ServiceSearchIndex.rebuild`'s index construction: tokenize every
service's title and excerpt and invert. (`if service.excerpt:` is folded in
because `tokenise` of the empty string is empty.) -/
def rebuildIndex (services : List (String × ServiceSummary)) :
    List (String × List String) :=
  services.foldl
    (fun idx p =>
      let s := p.2
      let tokens := listToSet (tokenise s.title ++ tokenise (s.excerpt.getD ""))
      tokens.foldl (fun idx t => dSetAdd idx t s.id) idx)
    []

/-- The `candidates` dict of `ServiceSearchIndex.search`: for every query
token, bump each indexed service id found under that token. -/
def buildCandidates (idx : List (String × List String)) (tokens : List String) :
    List (String × Nat) :=
  tokens.foldl (fun m t => (dgetList idx t).foldl (fun m sid => dbump m sid) m) []

/-- The `scored` list of `ServiceSearchIndex.search`: token-match scoring
(`count*10 + partial-ratio`), or the fuzzy-only fallback with the `>= 40`
cut when no query token matched. -/
def scoredList (fr : String → String → ℚ) (services : List (String × ServiceSummary))
    (idx : List (String × List String)) (query : String) : List (ℚ × ServiceSummary) :=
  let cands := buildCandidates idx (tokenise query)
  if cands ≠ [] then
    cands.filterMap (fun p =>
      (dlookup services p.1).map (fun s =>
        ((p.2 : ℚ) * 10 + fr (strLower query) (strLower s.title), s)))
  else
    (services.map (fun p => p.2)).filterMap (fun s =>
      let fuzzy := fr (strLower query) (strLower s.title)
      if 40 ≤ fuzzy then some (fuzzy, s) else none)

/-- `scored.sort(key=lambda item: item[0], reverse=True)`: CPython's stable
descending sort, i.e. a stable merge sort under the flipped comparison. -/
def sortedScored (fr : String → String → ℚ) (services : List (String × ServiceSummary))
    (idx : List (String × List String)) (query : String) : List (ℚ × ServiceSummary) :=
  (scoredList fr services idx query).mergeSort (fun a b => decide (b.1 ≤ a.1))

/-- The final result loop of `ServiceSearchIndex.search`: deduplicate by id,
copy each summary with its score, and stop once `len(results) >= limit`
(checked only after an append). -/
def takeResults (limit : Int) :
    List (ℚ × ServiceSummary) → List String → List ServiceSummary → List ServiceSummary
  | [], _, acc => acc.reverse
  | (sc, s) :: rest, seen, acc =>
      if s.id ∈ seen then takeResults limit rest seen acc
      else
        if limit ≤ (({ s with score := some sc } :: acc).length : Int) then
          ({ s with score := some sc } :: acc).reverse
        else takeResults limit rest (s.id :: seen) ({ s with score := some sc } :: acc)

/-- `ServiceSearchIndex.search(query, limit)` over the given services map and
inverted index. -/
def ServiceSearchIndex.search (fr : String → String → ℚ)
    (services : List (String × ServiceSummary)) (idx : List (String × List String))
    (query : String) (limit : Int) : List ServiceSummary :=
  if pyStrip query = "" then []
  else takeResults limit (sortedScored fr services idx query) [] []

/-- `ServiceSearchIndex.__init__` / `rebuild` as a state transformer: calls
`ensure_catalog` on the owning registry and re-derives the inverted index
from that provider's services. -/
def ServiceSearchIndex.rebuild (st : RegistryState) (pid : String) :
    List (String × List String) × RegistryState :=
  let (cat, st') := st.ensure_catalog pid
  (rebuildIndex cat.services, st')

/-! ## Provider descriptors and candidate ordering
(`src/server/providers/base.py`, `src/server/tools.py`) -/

/-- `providers.base.ProviderDescriptor`. -/
structure ProviderDescriptor where
  id : String
  name : String
  description : String
  priority : Int
  coverage_tags : List String
  supported_tools : List String
deriving DecidableEq

/-- `ProviderRegistry.ordered_descriptors`:
`sorted(descriptors.values(), key=priority, reverse=True)` — a stable
descending sort. -/
def ordered_descriptors (reg : List (String × ProviderDescriptor)) :
    List ProviderDescriptor :=
  (reg.map (fun p => p.2)).mergeSort (fun a b => decide (b.priority ≤ a.priority))

/-- The `coverage_score` closure of `tools._provider_candidates`:
`max(partial-ratio(query_normalized, tag.lower()) for tag in coverage_tags)`,
`0` when there are no tags. -/
def coverage_score (fr : String → String → ℚ) (query_normalized : String)
    (d : ProviderDescriptor) : ℚ :=
  match d.coverage_tags.map (fun tag => fr query_normalized (strLower tag)) with
  | [] => 0
  | s :: rest => rest.foldl max s

/-- The sort key `(coverage_score(d) >= 60, coverage_score(d), d.priority)`. -/
def candKey (fr : String → String → ℚ) (query_normalized : String)
    (d : ProviderDescriptor) : Bool × ℚ × Int :=
  (decide (60 ≤ coverage_score fr query_normalized d),
   coverage_score fr query_normalized d, d.priority)

/-- Python tuple `<=` on a `(bool, float, int)` key (False < True). -/
def keyLe (x y : Bool × ℚ × Int) : Bool :=
  if x.1 = y.1 then
    if x.2.1 = y.2.1 then decide (x.2.2 ≤ y.2.2)
    else decide (x.2.1 < y.2.1)
  else (!x.1 && y.1)

/-- `tools._provider_candidates`, as the list of descriptors it yields (the
provider instance paired with each descriptor carries no further data used
by the loop). An explicit truthy `provider_id` short-circuits to that single
provider, or to `ProviderError` when unregistered (the source message also
quotes the id). With a truthy `query`, the priority-ordered descriptors are
re-sorted, stably and descending, by `candKey`. -/
def provider_candidates (fr : String → String → ℚ)
    (reg : List (String × ProviderDescriptor))
    (provider_id : Option String) (query : Option String) :
    Except String (List ProviderDescriptor) :=
  if isTruthy provider_id then
    match dlookup reg (provider_id.getD "") with
    | none => Except.error ("Provider " ++ provider_id.getD "" ++ " not registered.")
    | some d => Except.ok [d]
  else
    let ds := ordered_descriptors reg
    let ds :=
      if isTruthy query then
        let qn := strLower (query.getD "")
        ds.mergeSort (fun a b => keyLe (candKey fr qn b) (candKey fr qn a))
      else ds
    Except.ok ds

/-! ## Aggregation/fallback orchestrator (`src/server/tools.py`) -/

/-- The payload a single-provider call returns: `provider_id`, the result
items (`categories` / `results`), the payload's own `warnings` (present when
the provider served from its cache fallback), and the remaining payload
fields (`source`, `limit`, `offset`, ... ), opaque to the loop. -/
structure ToolPayload (α ρ : Type) where
  provider_id : String
  items : List α
  warnings : List String
  rest : ρ

/-- One candidate provider as the orchestrator loop observes it: its id and
the outcome of its `_list_categories_single` / `_search_services_single`
call — an exception message or a payload. -/
structure Candidate (α ρ : Type) where
  pid : String
  outcome : Except String (ToolPayload α ρ)

/-- `tools._append_warnings`: extend the payload's warning list (a no-op for
an empty warning list). -/
def appendWarnings {α ρ : Type} (p : ToolPayload α ρ) (ws : List String) :
    ToolPayload α ρ :=
  if ws = [] then p else { p with warnings := p.warnings ++ ws }

/-- The shared candidate loop of `list_categories_tool` and
`search_services_tool`: on exception append a `"pid: err"` warning and
continue; on an empty success append a `"pid: emptyMsg"` warning, remember
the payload, and continue; on a non-empty success return it immediately with
the accumulated warnings; when exhausted return the remembered payload with
all warnings, or fail with `ProviderError errMsg`. -/
def fallbackLoop {α ρ : Type} (emptyMsg errMsg : String) :
    List (Candidate α ρ) → List String → Option (ToolPayload α ρ) →
      Except String (ToolPayload α ρ)
  | [], _, none => Except.error errMsg
  | [], ws, some p => Except.ok (appendWarnings p ws)
  | c :: rest, ws, last =>
    match c.outcome with
    | Except.error e =>
        fallbackLoop emptyMsg errMsg rest (ws ++ [c.pid ++ ": " ++ e]) last
    | Except.ok p =>
        if p.items.isEmpty then
          fallbackLoop emptyMsg errMsg rest (ws ++ [c.pid ++ ": " ++ emptyMsg]) (some p)
        else Except.ok (appendWarnings p ws)

/-- `tools.list_categories_tool`, over the candidate sequence it iterates. -/
def list_categories_tool {α ρ : Type} (cands : List (Candidate α ρ)) :
    Except String (ToolPayload α ρ) :=
  fallbackLoop "no categories returned" "No providers returned categories" cands [] none

/-- `tools.search_services_tool`, over the candidate sequence it iterates. -/
def search_services_tool {α ρ : Type} (cands : List (Candidate α ρ)) :
    Except String (ToolPayload α ρ) :=
  fallbackLoop "no results returned" "No providers returned results" cands [] none

/-! ## Orchestrator loop lemmas -/

/-- A candidate whose call raised, or succeeded with an empty result set. -/
def failedOrEmptyB {α ρ : Type} (c : Candidate α ρ) : Bool :=
  match c.outcome with
  | Except.error _ => true
  | Except.ok p => p.items.isEmpty

/-- A candidate whose call raised. -/
def raisedB {α ρ : Type} (c : Candidate α ρ) : Bool :=
  match c.outcome with
  | Except.error _ => true
  | Except.ok _ => false

/-- The warning the loop records for a failed (`"pid: err"`) or empty
(`"pid: emptyMsg"`) candidate. -/
def warnOf {α ρ : Type} (emptyMsg : String) (c : Candidate α ρ) : String :=
  match c.outcome with
  | Except.error e => c.pid ++ ": " ++ e
  | Except.ok _ => c.pid ++ ": " ++ emptyMsg

/-- The warnings accumulated over a run of failed-or-empty candidates. -/
def warnList {α ρ : Type} (emptyMsg : String) (cands : List (Candidate α ρ)) :
    List String :=
  cands.map (warnOf emptyMsg)

/-- The payload of a candidate whose call returned (did not raise). -/
def okPayload {α ρ : Type} (c : Candidate α ρ) : Option (ToolPayload α ρ) :=
  match c.outcome with
  | Except.ok p => some p
  | Except.error _ => none

theorem getLast?_cons_of_eq_some {α : Type} {l : List α} {q a : α}
    (h : l.getLast? = some q) : (a :: l).getLast? = some q := by
  cases l with
  | nil => simp at h
  | cons x t => rw [List.getLast?_cons_cons]; exact h

theorem eq_nil_of_getLast?_eq_none {α : Type} {l : List α}
    (h : l.getLast? = none) : l = [] := by
  cases l with
  | nil => rfl
  | cons x t =>
    exfalso
    have := List.getLast?_isSome (l := x :: t)
    rw [h] at this
    simp at this

/-- The first candidate in order whose call succeeds non-empty is returned
immediately, annotated with exactly the warnings of the earlier candidates;
the remaining candidates `post` never influence the outcome. -/
theorem fallbackLoop_first_nonempty {α ρ : Type} (emptyMsg errMsg : String)
    (pre : List (Candidate α ρ)) (post : List (Candidate α ρ))
    (c : Candidate α ρ) (p : ToolPayload α ρ) (ws : List String)
    (last : Option (ToolPayload α ρ))
    (hpre : ∀ x ∈ pre, failedOrEmptyB x = true)
    (hc : c.outcome = Except.ok p) (hne : p.items ≠ []) :
    fallbackLoop emptyMsg errMsg (pre ++ c :: post) ws last =
      Except.ok (appendWarnings p (ws ++ warnList emptyMsg pre)) := by
  induction pre generalizing ws last with
  | nil =>
    have hne' : p.items.isEmpty = false := by
      simpa [List.isEmpty_iff] using hne
    simp [fallbackLoop, hc, hne', warnList]
  | cons x pre' ih =>
    have hx := hpre x (by simp)
    cases hxo : x.outcome with
    | error e =>
      have step : fallbackLoop emptyMsg errMsg ((x :: pre') ++ c :: post) ws last =
          fallbackLoop emptyMsg errMsg (pre' ++ c :: post)
            (ws ++ [x.pid ++ ": " ++ e]) last := by
        simp [fallbackLoop, hxo]
      rw [step, ih _ _ (fun y hy => hpre y (List.mem_cons_of_mem x hy))]
      simp [warnList, warnOf, hxo]
    | ok q =>
      have hq : q.items.isEmpty = true := by
        simpa [failedOrEmptyB, hxo] using hx
      have step : fallbackLoop emptyMsg errMsg ((x :: pre') ++ c :: post) ws last =
          fallbackLoop emptyMsg errMsg (pre' ++ c :: post)
            (ws ++ [x.pid ++ ": " ++ emptyMsg]) (some q) := by
        simp [fallbackLoop, hxo, hq]
      rw [step, ih _ _ (fun y hy => hpre y (List.mem_cons_of_mem x hy))]
      simp [warnList, warnOf, hxo]

/-- When every candidate fails or comes back empty, the loop returns the
last remembered empty payload (or, with none remembered at all, the
aggregate error), annotated with all accumulated warnings. -/
theorem fallbackLoop_exhausted {α ρ : Type} (emptyMsg errMsg : String)
    (cands : List (Candidate α ρ)) (ws : List String)
    (last : Option (ToolPayload α ρ))
    (hall : ∀ x ∈ cands, failedOrEmptyB x = true) :
    fallbackLoop emptyMsg errMsg cands ws last =
      match (cands.filterMap okPayload).getLast? with
      | some p => Except.ok (appendWarnings p (ws ++ warnList emptyMsg cands))
      | none =>
          match last with
          | some q => Except.ok (appendWarnings q (ws ++ warnList emptyMsg cands))
          | none => Except.error errMsg := by
  induction cands generalizing ws last with
  | nil =>
    cases last <;> simp [fallbackLoop, warnList]
  | cons c rest ih =>
    have hcfe := hall c (by simp)
    have ihr := fun ws last => ih ws last (fun y hy => hall y (List.mem_cons_of_mem c hy))
    cases hco : c.outcome with
    | error e =>
      have hfm : (List.filterMap okPayload (c :: rest)) = List.filterMap okPayload rest := by
        simp [okPayload, hco]
      have step : fallbackLoop emptyMsg errMsg (c :: rest) ws last =
          fallbackLoop emptyMsg errMsg rest (ws ++ [c.pid ++ ": " ++ e]) last := by
        simp [fallbackLoop, hco]
      rw [step, ihr _ _]
      rw [hfm]

      cases hgl : (List.filterMap okPayload rest).getLast? with
      | some q => simp [warnList, warnOf, hco]
      | none => cases last <;> simp [warnList, warnOf, hco]
    | ok q =>
      have hq : q.items.isEmpty = true := by
        simpa [failedOrEmptyB, hco] using hcfe
      have hfm : (List.filterMap okPayload (c :: rest)) =
          q :: List.filterMap okPayload rest := by
        simp [okPayload, hco]
      have step : fallbackLoop emptyMsg errMsg (c :: rest) ws last =
          fallbackLoop emptyMsg errMsg rest (ws ++ [c.pid ++ ": " ++ emptyMsg]) (some q) := by
        simp [fallbackLoop, hco, hq]
      rw [step, ihr _ _, hfm]
      cases hgl : (List.filterMap okPayload rest).getLast? with
      | some r =>
        rw [getLast?_cons_of_eq_some hgl]
        simp [warnList, warnOf, hco]
      | none =>
        have hnil := eq_nil_of_getLast?_eq_none hgl
        rw [hnil]
        simp [warnList, warnOf, hco]

/-- C1: For every sequence of candidate providers iterated by
`list_categories_tool` or `search_services_tool`, the first candidate in
candidate order whose call succeeds with a non-empty result set has its
payload (with its provider id) returned immediately, annotated with exactly
the warnings accumulated from the earlier failed or empty candidates; the
result does not depend on the candidates after it (`post` is universally
quantified and absent from the right-hand side), so no later candidate is
consulted after a non-empty success. -/
theorem claim1_first_nonempty_wins {α ρ : Type}
    (pre post : List (Candidate α ρ)) (c : Candidate α ρ) (p : ToolPayload α ρ)
    (hpre : ∀ x ∈ pre, failedOrEmptyB x = true)
    (hc : c.outcome = Except.ok p) (hne : p.items ≠ []) :
    search_services_tool (pre ++ c :: post) =
        Except.ok (appendWarnings p (warnList "no results returned" pre)) ∧
      list_categories_tool (pre ++ c :: post) =
        Except.ok (appendWarnings p (warnList "no categories returned" pre)) := by
  refine ⟨?_, ?_⟩ <;>
    simpa using fallbackLoop_first_nonempty _ _ pre post c p [] none hpre hc hne

/-- Concrete candidate raising an exception. -/
def candA : Candidate Unit Unit := ⟨"alpha", Except.error "boom"⟩

/-- Concrete non-empty payload for provider `beta`. -/
def pB : ToolPayload Unit Unit := ⟨"beta", [()], [], ()⟩

/-- Concrete candidate succeeding non-empty. -/
def candB : Candidate Unit Unit := ⟨"beta", Except.ok pB⟩

/-- Concrete later candidate that would also succeed non-empty. -/
def candD : Candidate Unit Unit := ⟨"delta", Except.ok ⟨"delta", [()], [], ()⟩⟩

/-- Concrete empty payload for provider `eps`. -/
def pE : ToolPayload Unit Unit := ⟨"eps", [], [], ()⟩

/-- Concrete candidate succeeding with an empty result set. -/
def candE : Candidate Unit Unit := ⟨"eps", Except.ok pE⟩

theorem claim1_first_nonempty_wins_witness :
    search_services_tool [candA, candB, candD] =
        Except.ok (appendWarnings pB (warnList "no results returned" [candA])) ∧
      list_categories_tool [candA, candB, candD] =
        Except.ok (appendWarnings pB (warnList "no categories returned" [candA])) :=
  claim1_first_nonempty_wins [candA] [candD] candB pB (by decide) rfl (by decide)

/-- C3: if the loop exhausts all candidates with no non-empty success but at
least one candidate succeeded empty, the tools return the last remembered
empty payload — not an error — annotated with one warning per empty
candidate and one per raising candidate, in candidate order. -/
theorem claim3_exhausted_returns_last_empty {α ρ : Type}
    (cands : List (Candidate α ρ)) (p : ToolPayload α ρ)
    (hall : ∀ x ∈ cands, failedOrEmptyB x = true)
    (hlast : (cands.filterMap okPayload).getLast? = some p) :
    search_services_tool cands =
        Except.ok (appendWarnings p (warnList "no results returned" cands)) ∧
      list_categories_tool cands =
        Except.ok (appendWarnings p (warnList "no categories returned" cands)) := by
  constructor
  · rw [search_services_tool, fallbackLoop_exhausted _ _ _ _ _ hall, hlast]
    simp
  · rw [list_categories_tool, fallbackLoop_exhausted _ _ _ _ _ hall, hlast]
    simp

theorem claim3_exhausted_returns_last_empty_witness :
    search_services_tool [candA, candE] =
        Except.ok (appendWarnings pE (warnList "no results returned" [candA, candE])) ∧
      list_categories_tool [candA, candE] =
        Except.ok (appendWarnings pE (warnList "no categories returned" [candA, candE])) :=
  claim3_exhausted_returns_last_empty [candA, candE] pE (by decide) rfl

theorem filterMap_okPayload_eq_nil_of_raised {α ρ : Type}
    {cands : List (Candidate α ρ)} (hall : ∀ x ∈ cands, raisedB x = true) :
    cands.filterMap okPayload = [] := by
  induction cands with
  | nil => rfl
  | cons c rest ih =>
    have hc := hall c (by simp)
    cases hco : c.outcome with
    | error e =>
      simp only [List.filterMap_cons, okPayload, hco]
      exact ih (fun y hy => hall y (by simp [hy]))
    | ok q => simp [raisedB, hco] at hc

/-- C2 (amended): when every candidate raised (so no payload was ever
produced), both tools fail with an aggregate `ProviderError` carrying the
FIXED message `"No providers returned results"` /
`"No providers returned categories"`; the accumulated per-provider warnings
are discarded, so the message does not list the failing provider ids. -/
theorem claim2_all_raised_fixed_error {α ρ : Type}
    (cands : List (Candidate α ρ))
    (hall : ∀ x ∈ cands, raisedB x = true) :
    search_services_tool cands = Except.error "No providers returned results" ∧
      list_categories_tool cands = Except.error "No providers returned categories" := by
  have hfe : ∀ x ∈ cands, failedOrEmptyB x = true := by
    intro x hx
    have := hall x hx
    cases hxo : x.outcome with
    | error e => simp [failedOrEmptyB, hxo]
    | ok q => simp [raisedB, hxo] at this
  constructor
  · rw [search_services_tool, fallbackLoop_exhausted _ _ _ _ _ hfe,
      filterMap_okPayload_eq_nil_of_raised hall]
    rfl
  · rw [list_categories_tool, fallbackLoop_exhausted _ _ _ _ _ hfe,
      filterMap_okPayload_eq_nil_of_raised hall]
    rfl


theorem claim2_all_raised_fixed_error_witness :
    search_services_tool [candA] = Except.error "No providers returned results" ∧
      list_categories_tool [candA] = Except.error "No providers returned categories" :=
  claim2_all_raised_fixed_error [candA] (by decide)

/-- C2 counterexample: with the single candidate provider `alpha` raising,
`search_services_tool` fails — but its error message is the fixed string
`"No providers returned results"`, which does not mention the failing
provider id `alpha` at all, contradicting the claim that the aggregate
error message lists every provider id that failed. -/
theorem claim2_counterexample :
    search_services_tool [candA] = Except.error "No providers returned results" ∧
      ¬ ("alpha".toList <:+: "No providers returned results".toList) :=
  ⟨rfl, by decide⟩

/-! ## Derived-index rebuild lemmas (C6) -/

theorem dgetList_dappend {κ : Type} [DecidableEq κ] {α : Type}
    (m : List (κ × List α)) (k k' : κ) (v : α) :
    dgetList (dappend m k v) k' =
      dgetList m k' ++ (if k = k' then [v] else []) := by
  induction m with
  | nil =>
    by_cases h : k = k' <;> simp [dappend, dgetList, dlookup, h]
  | cons hd tl ih =>
    obtain ⟨k0, vs⟩ := hd
    by_cases h0 : k0 = k
    · subst h0
      by_cases h1 : k0 = k' <;> simp [dappend, dgetList, dlookup, h1]
    · by_cases h1 : k0 = k'
      · subst h1
        have hkk : ¬ k = k0 := fun h => h0 h.symm
        simp [dappend, dgetList, dlookup, h0, hkk]
      · simpa [dappend, dgetList, dlookup, h0, h1] using ih

theorem dgetList_children_fold (l : List Category)
    (m : List (Option String × List String)) (k : Option String) :
    dgetList (l.foldl (fun m cat => dappend m cat.parent_id cat.id) m) k =
      dgetList m k ++ (l.filter (fun c => c.parent_id = k)).map (fun c => c.id) := by
  induction l generalizing m with
  | nil => simp
  | cons c rest ih =>
    rw [List.foldl_cons, ih, dgetList_dappend]
    by_cases h : c.parent_id = k <;> simp [h]

theorem dgetList_svc_inner_fold (ids : List String)
    (m : List (String × List String)) (sid k : String) :
    dgetList (ids.foldl (fun m cid => dappend m cid sid) m) k =
      dgetList m k ++ (ids.filter (fun cid => cid = k)).map (fun _ => sid) := by
  induction ids generalizing m with
  | nil => simp
  | cons cid rest ih =>
    rw [List.foldl_cons, ih, dgetList_dappend]
    by_cases h : cid = k <;> simp [h]

theorem filter_eq_nil_of_not_mem {ids : List String} {k : String}
    (h : ¬ k ∈ ids) : ids.filter (fun x => x = k) = [] := by
  induction ids with
  | nil => rfl
  | cons x t ih =>
    have hx : ¬ x = k := by
      intro hxk
      exact h (by simp [hxk])
    have ht : ¬ k ∈ t := fun hk => h (by simp [hk])
    simp [hx, ih ht]

theorem filter_eq_of_nodup {ids : List String} {k : String} (h : ids.Nodup) :
    ids.filter (fun x => x = k) = if k ∈ ids then [k] else [] := by
  induction ids with
  | nil => simp
  | cons x t ih =>
    rcases List.nodup_cons.mp h with ⟨hx, ht⟩
    by_cases hxk : x = k
    · subst hxk
      simp [filter_eq_nil_of_not_mem hx]
    · have hmem : (k ∈ x :: t) ↔ (k ∈ t) := by
        constructor
        · intro h'
          rcases List.mem_cons.mp h' with h1 | h1
          · exact absurd h1.symm hxk
          · exact h1
        · exact fun h' => List.mem_cons_of_mem x h'
      simp [List.filter_cons, hxk, ih ht, hmem]

theorem dgetList_svc_outer_fold (l : List ServiceSummary)
    (m : List (String × List String)) (k : String)
    (hnd : ∀ s ∈ l, s.category_ids.Nodup) :
    dgetList (l.foldl
        (fun m s => s.category_ids.foldl (fun m cid => dappend m cid s.id) m) m) k =
      dgetList m k ++ (l.filter (fun s => k ∈ s.category_ids)).map (fun s => s.id) := by
  induction l generalizing m with
  | nil => simp
  | cons s rest ih =>
    rw [List.foldl_cons, ih _ (fun y hy => hnd y (List.mem_cons_of_mem s hy)),
      dgetList_svc_inner_fold]
    rw [filter_eq_of_nodup (hnd s (by simp))]
    by_cases h : k ∈ s.category_ids <;> simp [h]

/-- C6: after any `update_categories`/`update_services` call (either replace
flag), the derived indices agree with a full rebuild from the authoritative
maps: `category_children` maps every parent id (including `none`) to exactly
the ids of the stored categories having that parent, and
`services_by_category` maps every category id to exactly the ids of the
stored services whose `category_ids` contain it (stated for services with
duplicate-free `category_ids`, which every well-formed model instance has);
each `update_*` call leaves the other map and its index untouched; and
`update_categories` with `replace=True` is idempotent. -/
theorem claim6_indices_full_rebuild (c : ProviderCatalog)
    (cats : List Category) (svcs : List ServiceSummary) (rep rep' : Bool)
    (k : Option String) (kc : String)
    (hnd : ∀ s ∈ (c.update_services svcs rep').services.map (fun p => p.2),
      s.category_ids.Nodup) :
    (dgetList (c.update_categories cats rep).category_children k =
        (((c.update_categories cats rep).categories.map (fun p => p.2)).filter
          (fun cat => cat.parent_id = k)).map (fun cat => cat.id)) ∧
      ((c.update_categories cats rep).services = c.services ∧
        (c.update_categories cats rep).services_by_category = c.services_by_category ∧
        (c.update_categories cats rep).service_details = c.service_details) ∧
      (dgetList (c.update_services svcs rep').services_by_category kc =
        (((c.update_services svcs rep').services.map (fun p => p.2)).filter
          (fun s => kc ∈ s.category_ids)).map (fun s => s.id)) ∧
      ((c.update_services svcs rep').categories = c.categories ∧
        (c.update_services svcs rep').category_children = c.category_children) ∧
      ((c.update_categories cats true).update_categories cats true =
        c.update_categories cats true) := by
  refine ⟨?_, ⟨rfl, rfl, rfl⟩, ?_, ⟨rfl, rfl⟩, rfl⟩
  · show dgetList ((((if rep then [] else c.categories) |>
        (fun base => cats.foldl (fun m cat => dinsert m cat.id cat) base)).map
          (fun p => p.2)).foldl (fun m cat => dappend m cat.parent_id cat.id) []) k = _
    rw [dgetList_children_fold]
    simp [ProviderCatalog.update_categories, dgetList, dlookup]
  · show dgetList ((((if rep' then [] else c.services) |>
        (fun base => svcs.foldl (fun m s => dinsert m s.id s) base)).map
          (fun p => p.2)).foldl
            (fun m s => s.category_ids.foldl (fun m cid => dappend m cid s.id) m) []) kc = _
    rw [dgetList_svc_outer_fold _ _ _ (by simpa [ProviderCatalog.update_services] using hnd)]
    simp [ProviderCatalog.update_services, dgetList, dlookup]

/-- A small concrete category for witnesses. -/
def catRoot : Category := ⟨"root", "Root", "http://x/root", "p1", none, none, none⟩

/-- A small concrete child category for witnesses. -/
def catChild : Category := ⟨"child", "Child", "http://x/child", "p1", none, some "root", none⟩

/-- A small concrete service for witnesses. -/
def svcOne : ServiceSummary := ⟨"s1", "Titre один", "http://x/s1", "p1", ["root"], none, none⟩

theorem claim6_indices_full_rebuild_witness :
    (dgetList ((ProviderCatalog.empty "p1").update_categories [catRoot, catChild] true).category_children (some "root") =
        ((((ProviderCatalog.empty "p1").update_categories [catRoot, catChild] true).categories.map (fun p => p.2)).filter
          (fun cat => cat.parent_id = some "root")).map (fun cat => cat.id)) ∧
      (((ProviderCatalog.empty "p1").update_categories [catRoot, catChild] true).services = (ProviderCatalog.empty "p1").services ∧
        ((ProviderCatalog.empty "p1").update_categories [catRoot, catChild] true).services_by_category = (ProviderCatalog.empty "p1").services_by_category ∧
        ((ProviderCatalog.empty "p1").update_categories [catRoot, catChild] true).service_details = (ProviderCatalog.empty "p1").service_details) ∧
      (dgetList (((ProviderCatalog.empty "p1").update_services [svcOne] false)).services_by_category "root" =
        ((((ProviderCatalog.empty "p1").update_services [svcOne] false).services.map (fun p => p.2)).filter
          (fun s => "root" ∈ s.category_ids)).map (fun s => s.id)) ∧
      ((((ProviderCatalog.empty "p1").update_services [svcOne] false)).categories = (ProviderCatalog.empty "p1").categories ∧
        (((ProviderCatalog.empty "p1").update_services [svcOne] false)).category_children = (ProviderCatalog.empty "p1").category_children) ∧
      (((ProviderCatalog.empty "p1").update_categories [catRoot, catChild] true).update_categories [catRoot, catChild] true =
        (ProviderCatalog.empty "p1").update_categories [catRoot, catChild] true) :=
  claim6_indices_full_rebuild (ProviderCatalog.empty "p1") [catRoot, catChild]
    [svcOne] true false (some "root") "root" (by decide)

/-! ## Serialization round-trip lemmas (C7) -/

theorem dinsert_append_fresh {κ α : Type} [DecidableEq κ]
    {m : List (κ × α)} {k : κ} {v : α} (h : ¬ k ∈ m.map (fun p => p.1)) :
    dinsert m k v = m ++ [(k, v)] := by
  induction m with
  | nil => rfl
  | cons hd tl ih =>
    have hk : ¬ hd.1 = k := by
      intro he
      exact h (by simp [he])
    have ht : ¬ k ∈ tl.map (fun p => p.1) := fun hm => h (by simp [hm])
    simp only [dinsert, hk, if_false, List.cons_append, List.cons.injEq, true_and]
    exact ih ht

theorem fold_dinsert_map {κ α β : Type} [DecidableEq κ]
    (vs : List α) (key : α → κ) (val : α → β) (m0 : List (κ × β))
    (hdisj : ∀ v ∈ vs, ¬ key v ∈ m0.map (fun p => p.1))
    (hnd : (vs.map key).Nodup) :
    vs.foldl (fun m v => dinsert m (key v) (val v)) m0 =
      m0 ++ vs.map (fun v => (key v, val v)) := by
  induction vs generalizing m0 with
  | nil => simp
  | cons v rest ih =>
    rw [List.map_cons] at hnd
    obtain ⟨hv, hrest⟩ := List.nodup_cons.mp hnd
    rw [List.foldl_cons, dinsert_append_fresh (hdisj v (by simp))]
    rw [ih (m0 ++ [(key v, val v)])]
    · simp
    · intro w hw
      simp only [List.map_append, List.mem_append]
      rintro (hm | hm)
      · exact hdisj w (List.mem_cons_of_mem v hw) hm
      · simp only [List.map_cons, List.map_nil, List.mem_singleton] at hm
        exact hv (hm ▸ List.mem_map_of_mem key hw)
    · exact hrest

theorem fold_reinsert_values {κ α : Type} [DecidableEq κ]
    (m : List (κ × α)) (key : α → κ)
    (hkey : ∀ p ∈ m, p.1 = key p.2) (hnd : (m.map (fun p => p.1)).Nodup) :
    (m.map (fun p => p.2)).foldl (fun d v => dinsert d (key v) v) [] = m := by
  have hkeys : (m.map (fun p => p.2)).map key = m.map (fun p => p.1) := by
    rw [List.map_map]
    apply List.map_congr_left
    intro p hp
    exact (hkey p hp).symm
  have hfold := fold_dinsert_map (m.map (fun p => p.2)) key id []
    (by simp) (by rw [hkeys]; exact hnd)
  show (m.map (fun p => p.2)).foldl (fun m v => dinsert m (key v) (id v)) [] = m
  rw [hfold, List.nil_append, List.map_map]
  have hpt : ∀ p ∈ m, ((fun v => (key v, id v)) ∘ fun q => q.2) p = id p := by
    intro p hp
    obtain ⟨k, v⟩ := p
    have hk : k = key v := by simpa using hkey ⟨k, v⟩ hp
    simp only [Function.comp, id_eq]
    simp [hk]
  rw [List.map_congr_left hpt, List.map_id]

theorem dlookup_map_pair {κ α β : Type} [DecidableEq κ]
    (m : List (κ × α)) (g : α → β) (k : κ) :
    dlookup (m.map (fun p => (p.1, g p.2))) k = (dlookup m k).map g := by
  induction m with
  | nil => rfl
  | cons hd tl ih =>
    by_cases h : hd.1 = k <;> simp [dlookup, h, ih]

theorem mem_of_dlookup_eq_some {κ α : Type} [DecidableEq κ]
    {m : List (κ × α)} {k : κ} {v : α} (h : dlookup m k = some v) : (k, v) ∈ m := by
  induction m with
  | nil => simp [dlookup] at h
  | cons hd tl ih =>
    by_cases hk : hd.1 = k
    · simp only [dlookup, hk, if_true, Option.some.injEq] at h
      subst hk; subst h
      simp
    · simp only [dlookup, hk, if_false] at h
      exact List.mem_cons_of_mem hd (ih h)

/-- Well-formedness of a catalog as produced by the `ProviderCatalog` API:
every map is keyed by its value's own id, with no duplicate keys. -/
def CatalogWF (c : ProviderCatalog) : Prop :=
  (∀ p ∈ c.categories, p.1 = p.2.id) ∧ (c.categories.map (fun p => p.1)).Nodup ∧
  (∀ p ∈ c.services, p.1 = p.2.id) ∧ (c.services.map (fun p => p.1)).Nodup ∧
  (∀ p ∈ c.service_details, p.1 = p.2.id) ∧
    (c.service_details.map (fun p => p.1)).Nodup ∧
  (∀ p ∈ c.selector_profiles, p.1 = p.2.service_id) ∧
    (c.selector_profiles.map (fun p => p.1)).Nodup

/-- Well-formedness of a registry state: catalogs keyed by their own
provider ids, no duplicates, and each catalog well-formed. -/
def RegistryWF (st : RegistryState) : Prop :=
  (∀ p ∈ st.catalogs, p.1 = p.2.provider_id ∧ CatalogWF p.2) ∧
    (st.catalogs.map (fun p => p.1)).Nodup

instance (c : ProviderCatalog) : Decidable (CatalogWF c) := by
  unfold CatalogWF; infer_instance

instance (st : RegistryState) : Decidable (RegistryWF st) := by
  unfold RegistryWF; infer_instance

theorem catalog_from_to_fields (c : ProviderCatalog) (h : CatalogWF c) :
    (ProviderCatalog.from_dict c.to_dict).provider_id = c.provider_id ∧
      (ProviderCatalog.from_dict c.to_dict).categories = c.categories ∧
      (ProviderCatalog.from_dict c.to_dict).services = c.services ∧
      (ProviderCatalog.from_dict c.to_dict).service_details = c.service_details ∧
      (ProviderCatalog.from_dict c.to_dict).selector_profiles = c.selector_profiles := by
  obtain ⟨hc1, hc2, hs1, hs2, hd1, hd2, hp1, hp2⟩ := h
  refine ⟨rfl, ?_, ?_, ?_, ?_⟩
  · show (c.to_dict.categories.foldl (fun m cat => dinsert m cat.id cat) []) = _
    exact fold_reinsert_values c.categories (fun cat => cat.id) hc1 hc2
  · show (c.to_dict.services.foldl (fun m s => dinsert m s.id s) []) = _
    exact fold_reinsert_values c.services (fun s => s.id) hs1 hs2
  · show (c.to_dict.service_details.foldl
        (fun m (det : ServiceDetails) => dinsert m det.id det) []) = _
    exact fold_reinsert_values c.service_details (fun det => det.id) hd1 hd2
  · show (c.to_dict.selector_profiles.foldl
        (fun m (p : SelectorProfile) => dinsert m p.service_id p) []) = _
    exact fold_reinsert_values c.selector_profiles (fun p => p.service_id) hp1 hp2

theorem catalog_from_to_doc (c : ProviderCatalog) (h : CatalogWF c) :
    (ProviderCatalog.from_dict c.to_dict).to_dict = c.to_dict := by
  obtain ⟨h0, h1, h2, h3, h4⟩ := catalog_from_to_fields c h
  calc (ProviderCatalog.from_dict c.to_dict).to_dict
      = CatalogDoc.mk (ProviderCatalog.from_dict c.to_dict).provider_id
          ((ProviderCatalog.from_dict c.to_dict).categories.map (fun p => p.2))
          ((ProviderCatalog.from_dict c.to_dict).services.map (fun p => p.2))
          ((ProviderCatalog.from_dict c.to_dict).service_details.map (fun p => p.2))
          ((ProviderCatalog.from_dict c.to_dict).selector_profiles.map (fun p => p.2)) := rfl
    _ = CatalogDoc.mk c.provider_id (c.categories.map (fun p => p.2))
          (c.services.map (fun p => p.2)) (c.service_details.map (fun p => p.2))
          (c.selector_profiles.map (fun p => p.2)) := by rw [h0, h1, h2, h3, h4]
    _ = c.to_dict := rfl

theorem registry_from_to_catalogs (st : RegistryState) (h : RegistryWF st) :
    (RegistryState.from_dict st.to_dict).catalogs =
      st.catalogs.map (fun p => (p.1, ProviderCatalog.from_dict p.2.to_dict)) := by
  obtain ⟨hmem, hnd⟩ := h
  show ((st.catalogs.map (fun p => p.2)).map ProviderCatalog.to_dict).foldl
      (fun m doc =>
        dinsert m (ProviderCatalog.from_dict doc).provider_id
          (ProviderCatalog.from_dict doc)) [] = _
  rw [fold_dinsert_map _ (fun doc => (ProviderCatalog.from_dict doc).provider_id)
      (fun doc => ProviderCatalog.from_dict doc) [] (by simp) ?_]
  · rw [List.nil_append, List.map_map, List.map_map]
    apply List.map_congr_left
    intro p hp
    show ((ProviderCatalog.from_dict p.2.to_dict).provider_id,
        ProviderCatalog.from_dict p.2.to_dict) =
      (p.1, ProviderCatalog.from_dict p.2.to_dict)
    rw [show (ProviderCatalog.from_dict p.2.to_dict).provider_id = p.2.provider_id from rfl]
    rw [← (hmem p hp).1]
  · have hcollapse : ((st.catalogs.map (fun p => p.2)).map ProviderCatalog.to_dict).map
        (fun doc => (ProviderCatalog.from_dict doc).provider_id) =
        st.catalogs.map (fun p => p.1) := by
      rw [List.map_map, List.map_map]
      apply List.map_congr_left
      intro p hp
      show (ProviderCatalog.from_dict p.2.to_dict).provider_id = p.1
      rw [show (ProviderCatalog.from_dict p.2.to_dict).provider_id = p.2.provider_id from rfl]
      exact ((hmem p hp).1).symm
    rw [hcollapse]
    exact hnd

/-- C7: persistence round-trip. For every well-formed `RegistryState`
(catalogs keyed by their own ids, no duplicate keys — the invariant the
`RegistryState` API maintains), deserializing the serialized form yields a
state with the same provider ids and, per provider, a catalog whose
serialized document (provider id plus category/service/detail/profile
values) is identical; consequently serializing the reloaded state equals
serializing the original state. -/
theorem claim7_round_trip (st : RegistryState) (pid : String) (h : RegistryWF st) :
    ((RegistryState.from_dict st.to_dict).catalogs.map (fun p => p.1) =
        st.catalogs.map (fun p => p.1)) ∧
      ((dlookup (RegistryState.from_dict st.to_dict).catalogs pid).map
          ProviderCatalog.to_dict =
        (dlookup st.catalogs pid).map ProviderCatalog.to_dict) ∧
      (RegistryState.from_dict st.to_dict).to_dict = st.to_dict := by
  have hcat := registry_from_to_catalogs st h
  obtain ⟨hmem, hnd⟩ := h
  refine ⟨?_, ?_, ?_⟩
  · rw [hcat, List.map_map]
    rfl
  · rw [hcat, dlookup_map_pair st.catalogs (fun c => ProviderCatalog.from_dict c.to_dict) pid]
    cases hb : dlookup st.catalogs pid with
    | none => simp
    | some c =>
      have hcwf : CatalogWF c := (hmem (pid, c) (mem_of_dlookup_eq_some hb)).2
      simp [catalog_from_to_doc c hcwf]
  · show RegistryDoc.mk _ = RegistryDoc.mk _
    rw [hcat, List.map_map, List.map_map]
    refine congrArg RegistryDoc.mk ?_
    rw [List.map_map]
    apply List.map_congr_left
    intro p hp
    simp only [Function.comp]
    exact catalog_from_to_doc p.2 (hmem p hp).2

/-- Concrete well-formed catalog for the round-trip witness. -/
def catWF1 : ProviderCatalog :=
  ((ProviderCatalog.empty "p1").update_categories [catRoot, catChild] true).update_services
    [svcOne] true

/-- Concrete well-formed registry state for the round-trip witness. -/
def stWF : RegistryState := ⟨[("p1", catWF1)]⟩

theorem claim7_round_trip_witness :
    ((RegistryState.from_dict stWF.to_dict).catalogs.map (fun p => p.1) =
        stWF.catalogs.map (fun p => p.1)) ∧
      ((dlookup (RegistryState.from_dict stWF.to_dict).catalogs "p1").map
          ProviderCatalog.to_dict =
        (dlookup stWF.catalogs "p1").map ProviderCatalog.to_dict) ∧
      (RegistryState.from_dict stWF.to_dict).to_dict = stWF.to_dict :=
  claim7_round_trip stWF "p1" (by decide)

/-! ## Breadcrumb termination and path shape (C8) -/

/-- `a` is the parent of `b` according to the catalog's category map. -/
def parentLink (cats : List (String × Category)) (a b : Category) : Prop :=
  ∃ k, b.parent_id = some k ∧ dlookup cats k = some a

theorem breadcrumbGo_spec (cats : List (String × Category)) :
    ∀ (n : Nat) (current : Option String) (visited : List String) (path : List Category),
    ((cats.map (fun p => p.1)).filter (fun k => decide (¬ k ∈ visited))).length ≤ n →
    List.Chain' (fun a b => parentLink cats b a) path →
    (∀ c, path.getLast? = some c → c.parent_id = current) →
    List.Chain' (parentLink cats) (breadcrumbGo cats current visited path) ∧
      (breadcrumbGo cats current visited path).length ≤
        path.length +
          ((cats.map (fun p => p.1)).filter (fun k => decide (¬ k ∈ visited))).length := by
  intro n
  induction n with
  | zero =>
    intro current visited path hm hchain hlink
    cases current with
    | none =>
      rw [breadcrumbGo]
      exact ⟨List.chain'_reverse.mpr hchain, by simp⟩
    | some cid =>
      rw [breadcrumbGo]
      by_cases hemp : cid = ""
      · simp only [hemp, if_true]
        exact ⟨List.chain'_reverse.mpr hchain, by simp⟩
      · simp only [if_neg hemp]
        by_cases hvis : cid ∈ visited
        · simp only [dif_pos hvis]
          exact ⟨List.chain'_reverse.mpr hchain, by simp⟩
        · simp only [dif_neg hvis]
          split
          · exact ⟨List.chain'_reverse.mpr hchain, by simp⟩
          · rename_i cat hlook
            exfalso
            have := filter_unvisited_cons_lt (mem_keys_of_dlookup_eq_some hlook) hvis
            omega
  | succ n ih =>
    intro current visited path hm hchain hlink
    cases current with
    | none =>
      rw [breadcrumbGo]
      exact ⟨List.chain'_reverse.mpr hchain, by simp⟩
    | some cid =>
      rw [breadcrumbGo]
      by_cases hemp : cid = ""
      · simp only [hemp, if_true]
        exact ⟨List.chain'_reverse.mpr hchain, by simp⟩
      · simp only [if_neg hemp]
        by_cases hvis : cid ∈ visited
        · simp only [dif_pos hvis]
          exact ⟨List.chain'_reverse.mpr hchain, by simp⟩
        · simp only [dif_neg hvis]
          split
          · exact ⟨List.chain'_reverse.mpr hchain, by simp⟩
          · rename_i cat hlook
            have hchain' : List.Chain' (fun a b => parentLink cats b a) (path ++ [cat]) := by
              rw [List.chain'_append]
              refine ⟨hchain, List.chain'_singleton cat, ?_⟩
              intro x hx y hy
              simp only [List.head?_cons, Option.mem_def, Option.some.injEq] at hy
              subst hy
              exact ⟨cid, hlink x hx, hlook⟩
            have hlink' : ∀ c, (path ++ [cat]).getLast? = some c →
                c.parent_id = cat.parent_id := by
              intro c hc
              rw [List.getLast?_concat] at hc
              cases hc
              rfl
            have hlt := filter_unvisited_cons_lt (mem_keys_of_dlookup_eq_some hlook) hvis
            have hm' : ((cats.map (fun p => p.1)).filter
                (fun k => decide (¬ k ∈ cid :: visited))).length ≤ n := by
              omega
            obtain ⟨ih1, ih2⟩ := ih cat.parent_id (cid :: visited) (path ++ [cat])
              hm' hchain' hlink'
            refine ⟨ih1, ?_⟩
            have hlen : (path ++ [cat]).length = path.length + 1 := by simp
            omega

/-- C8: `RegistryState.breadcrumb` is total (its Lean translation is
well-founded on the count of not-yet-visited catalog keys, which is exactly
the source's visited-set cycle guard), and on EVERY input — including
category graphs whose `parent_id` links form a cycle — it returns a finite
partial path in root-to-leaf order: its length is bounded by the number of
stored categories, and each consecutive pair is linked child-to-parent
through the catalog (the walk stops at a revisited id or missing ancestor
and returns the accumulated path reversed). -/
theorem claim8_breadcrumb_terminates (st : RegistryState) (pid cid : String) :
    ((st.breadcrumb pid cid).1).length ≤
        ((st.ensure_catalog pid).1).categories.length ∧
      List.Chain' (parentLink ((st.ensure_catalog pid).1).categories)
        ((st.breadcrumb pid cid).1) := by
  have hspec := breadcrumbGo_spec ((st.ensure_catalog pid).1).categories
    ((((st.ensure_catalog pid).1).categories.map (fun p => p.1)).filter
      (fun k => decide (¬ k ∈ ([] : List String)))).length
    (some cid) [] [] (le_refl _) (List.chain'_nil) (by intro c hc; simp at hc)
  refine ⟨?_, ?_⟩
  · calc ((st.breadcrumb pid cid).1).length
        ≤ [].length + ((((st.ensure_catalog pid).1).categories.map
            (fun p => p.1)).filter (fun k => decide (¬ k ∈ ([] : List String)))).length :=
          hspec.2
      _ ≤ ((st.ensure_catalog pid).1).categories.length := by
          simp
  · exact hspec.1

/-! ## `ensure_catalog` side effects of read accessors (C10) -/

theorem not_mem_keys_of_dlookup_eq_none {κ α : Type} [DecidableEq κ]
    {m : List (κ × α)} {k : κ} (h : dlookup m k = none) :
    ¬ k ∈ m.map (fun p => p.1) := by
  induction m with
  | nil => simp
  | cons hd tl ih =>
    by_cases hk : hd.1 = k
    · simp [dlookup, hk] at h
    · simp only [dlookup, hk, if_false] at h
      simp only [List.map_cons, List.mem_cons]
      rintro (he | he)
      · exact hk he.symm
      · exact ih h he

theorem dlookup_dinsert_self {κ α : Type} [DecidableEq κ]
    (m : List (κ × α)) (k : κ) (v : α) :
    dlookup (dinsert m k v) k = some v := by
  induction m with
  | nil => simp [dinsert, dlookup]
  | cons hd tl ih =>
    by_cases hk : hd.1 = k
    · simp [dinsert, hk, dlookup]
    · simp [dinsert, hk, dlookup, ih]

theorem ensure_catalog_of_missing {st : RegistryState} {pid : String}
    (h : dlookup st.catalogs pid = none) :
    st.ensure_catalog pid =
      (ProviderCatalog.empty pid,
        ⟨st.catalogs ++ [(pid, ProviderCatalog.empty pid)]⟩) := by
  rw [RegistryState.ensure_catalog, h]
  show (ProviderCatalog.empty pid,
      RegistryState.mk (dinsert st.catalogs pid (ProviderCatalog.empty pid))) = _
  rw [dinsert_append_fresh (not_mem_keys_of_dlookup_eq_none h)]

/-- C10: every `RegistryState` read accessor (`get_service_details`,
`categories_for_parent`, `breadcrumb`, `services_for_category`) and the
search-index construction/rebuild go through `ensure_catalog`, so calling
any of them with a provider id absent from `catalogs` inserts a fresh empty
`ProviderCatalog` for that id (appended at the end of the map) as a side
effect; afterwards `catalogs` contains the id, and the provider appears as
an empty entry in subsequent `to_dict` (and hence save) output. -/
theorem claim10_reads_insert_empty_catalog (st : RegistryState)
    (pid sid cid bcid : String) (parent : Option String)
    (h : dlookup st.catalogs pid = none) :
    ((st.get_service_details pid sid).2).catalogs =
        st.catalogs ++ [(pid, ProviderCatalog.empty pid)] ∧
      ((st.categories_for_parent pid parent).2).catalogs =
        st.catalogs ++ [(pid, ProviderCatalog.empty pid)] ∧
      ((st.breadcrumb pid bcid).2).catalogs =
        st.catalogs ++ [(pid, ProviderCatalog.empty pid)] ∧
      ((st.services_for_category pid cid).2).catalogs =
        st.catalogs ++ [(pid, ProviderCatalog.empty pid)] ∧
      ((ServiceSearchIndex.rebuild st pid).2).catalogs =
        st.catalogs ++ [(pid, ProviderCatalog.empty pid)] ∧
      dlookup ((st.get_service_details pid sid).2).catalogs pid =
        some (ProviderCatalog.empty pid) ∧
      ((st.get_service_details pid sid).2).to_dict =
        RegistryDoc.mk (st.to_dict.providers ++ [(ProviderCatalog.empty pid).to_dict]) := by
  have he := ensure_catalog_of_missing h
  have hcats : ((st.get_service_details pid sid).2).catalogs =
      st.catalogs ++ [(pid, ProviderCatalog.empty pid)] := by
    simp [RegistryState.get_service_details, he]
  refine ⟨hcats, ?_, ?_, ?_, ?_, ?_, ?_⟩
  · simp [RegistryState.categories_for_parent, he]
  · simp [RegistryState.breadcrumb, he]
  · simp [RegistryState.services_for_category, he]
  · simp [ServiceSearchIndex.rebuild, he]
  · rw [hcats]
    have hnm : ¬ pid ∈ st.catalogs.map (fun p => p.1) :=
      not_mem_keys_of_dlookup_eq_none h
    rw [← dinsert_append_fresh hnm]
    exact dlookup_dinsert_self st.catalogs pid (ProviderCatalog.empty pid)
  · rw [RegistryState.to_dict, RegistryState.to_dict, hcats]
    simp

/-- A registry state for the C10 witness, with no catalog for `p2`. -/
def stMissing : RegistryState := ⟨[("p1", ProviderCatalog.empty "p1")]⟩

theorem claim10_reads_insert_empty_catalog_witness :
    ((stMissing.get_service_details "p2" "s").2).catalogs =
        stMissing.catalogs ++ [("p2", ProviderCatalog.empty "p2")] ∧
      ((stMissing.categories_for_parent "p2" none).2).catalogs =
        stMissing.catalogs ++ [("p2", ProviderCatalog.empty "p2")] ∧
      ((stMissing.breadcrumb "p2" "c").2).catalogs =
        stMissing.catalogs ++ [("p2", ProviderCatalog.empty "p2")] ∧
      ((stMissing.services_for_category "p2" "c").2).catalogs =
        stMissing.catalogs ++ [("p2", ProviderCatalog.empty "p2")] ∧
      ((ServiceSearchIndex.rebuild stMissing "p2").2).catalogs =
        stMissing.catalogs ++ [("p2", ProviderCatalog.empty "p2")] ∧
      dlookup ((stMissing.get_service_details "p2" "s").2).catalogs "p2" =
        some (ProviderCatalog.empty "p2") ∧
      ((stMissing.get_service_details "p2" "s").2).to_dict =
        RegistryDoc.mk (stMissing.to_dict.providers ++ [(ProviderCatalog.empty "p2").to_dict]) :=
  claim10_reads_insert_empty_catalog stMissing "p2" "s" "c" "c" none (by decide)

/-! ## Candidate ordering (C4) -/

theorem lexQI_trans {xq yq zq : ℚ} {xi yi zi : Int}
    (h1 : if xq = yq then xi ≤ yi else xq < yq)
    (h2 : if yq = zq then yi ≤ zi else yq < zq) :
    if xq = zq then xi ≤ zi else xq < zq := by
  by_cases e1 : xq = yq
  · subst e1
    by_cases e2 : xq = zq
    · subst e2
      simp only [if_pos rfl] at h1 h2 ⊢
      exact le_trans h1 h2
    · simp only [if_pos rfl] at h1
      simp only [if_neg e2] at h2 ⊢
      exact h2
  · by_cases e2 : yq = zq
    · subst e2
      simp only [if_neg e1] at h1 ⊢
      exact h1
    · simp only [if_neg e1] at h1
      simp only [if_neg e2] at h2
      have hlt : xq < zq := lt_trans h1 h2
      simp only [if_neg (ne_of_lt hlt)]
      exact hlt

theorem keyLe_trans (x y z : Bool × ℚ × Int)
    (h1 : keyLe x y = true) (h2 : keyLe y z = true) : keyLe x z = true := by
  obtain ⟨xb, xq, xi⟩ := x
  obtain ⟨yb, yq, yi⟩ := y
  obtain ⟨zb, zq, zi⟩ := z
  simp only [keyLe] at h1 h2 ⊢
  cases xb <;> cases yb <;> cases zb <;> simp_all
  · exact lexQI_trans h1 h2
  · exact lexQI_trans h1 h2

theorem keyLe_total (x y : Bool × ℚ × Int) :
    (keyLe x y || keyLe y x) = true := by
  obtain ⟨xb, xq, xi⟩ := x
  obtain ⟨yb, yq, yi⟩ := y
  simp only [keyLe]
  cases xb <;> cases yb <;> simp_all
  all_goals
    by_cases e : xq = yq
  · subst e; simp [le_total xi yi]
  · rcases lt_or_gt_of_ne e with hlt | hgt
    · simp [e, Ne.symm e, hlt]
    · simp [e, Ne.symm e, hgt]
  · subst e; simp [le_total xi yi]
  · rcases lt_or_gt_of_ne e with hlt | hgt
    · simp [e, Ne.symm e, hlt]
    · simp [e, Ne.symm e, hgt]

theorem keyLe_fst_mono {x y : Bool × ℚ × Int} (h : keyLe x y = true) :
    x.1 = true → y.1 = true := by
  intro hx
  by_cases he : x.1 = y.1
  · rw [← he]; exact hx
  · rw [keyLe, if_neg he, hx] at h
    simp at h

/-- C4: candidate ordering of `tools._provider_candidates`. (a) A truthy
explicit `provider_id` yields exactly that one registered provider. (b) With
no query the candidates are exactly `ordered_descriptors()`, which is sorted
by priority descending (an empty query string is falsy and also skips the
re-rank). (c) With a non-empty query the candidates are a permutation of
all registered descriptors, sorted descending (stably) by the key
`(coverage_score >= 60, coverage_score, priority)`; in particular a
descriptor whose best coverage-tag score is >= 60 is never preceded by one
scoring below 60. -/
theorem claim4_candidate_ordering (fr : String → String → ℚ)
    (reg : List (String × ProviderDescriptor)) (pid : String)
    (d : ProviderDescriptor) (q : String) (qe : Option String) :
    (pid ≠ "" → dlookup reg pid = some d →
      provider_candidates fr reg (some pid) qe = Except.ok [d]) ∧
      (provider_candidates fr reg none none = Except.ok (ordered_descriptors reg) ∧
        provider_candidates fr reg none (some "") = Except.ok (ordered_descriptors reg) ∧
        List.Pairwise (fun a b => b.priority ≤ a.priority) (ordered_descriptors reg) ∧
        (ordered_descriptors reg).Perm (reg.map (fun p => p.2))) ∧
      (q ≠ "" →
        ∃ l, provider_candidates fr reg none (some q) = Except.ok l ∧
          l.Perm (reg.map (fun p => p.2)) ∧
          List.Pairwise (fun a b =>
            keyLe (candKey fr (strLower q) b) (candKey fr (strLower q) a) = true) l ∧
          List.Pairwise (fun a b =>
            60 ≤ coverage_score fr (strLower q) b →
              60 ≤ coverage_score fr (strLower q) a) l) := by
  refine ⟨?_, ⟨?_, ?_, ?_, ?_⟩, ?_⟩
  · intro hpid hlook
    have ht : isTruthy (some pid) = true := by simp [isTruthy, hpid]
    simp [provider_candidates, ht, hlook]
  · simp [provider_candidates, isTruthy]
  · simp [provider_candidates, isTruthy]
  · have hs := @List.sorted_mergeSort ProviderDescriptor
      (fun a b => decide (b.priority ≤ a.priority))
      (fun a b c h1 h2 => by
        simp only [decide_eq_true_eq] at h1 h2 ⊢
        exact le_trans h2 h1)
      (fun a b => by
        simp only [Bool.or_eq_true, decide_eq_true_eq]
        exact le_total b.priority a.priority)
      (reg.map (fun p => p.2))
    exact hs.imp (fun h => of_decide_eq_true h)
  · exact List.mergeSort_perm (reg.map (fun p => p.2)) _
  · intro hq
    have ht : isTruthy (some q) = true := by simp [isTruthy, hq]
    refine ⟨(ordered_descriptors reg).mergeSort
        (fun a b => keyLe (candKey fr (strLower q) b) (candKey fr (strLower q) a)), ?_, ?_, ?_, ?_⟩
    · simp [provider_candidates, isTruthy, hq]
    · exact (List.mergeSort_perm _ _).trans (List.mergeSort_perm _ _)
    · exact @List.sorted_mergeSort ProviderDescriptor
        (fun a b => keyLe (candKey fr (strLower q) b) (candKey fr (strLower q) a))
        (fun a b c h1 h2 => keyLe_trans _ _ _ h2 h1)
        (fun a b => keyLe_total (candKey fr (strLower q) b) (candKey fr (strLower q) a))
        (ordered_descriptors reg)
    · have hs := @List.sorted_mergeSort ProviderDescriptor
        (fun a b => keyLe (candKey fr (strLower q) b) (candKey fr (strLower q) a))
        (fun a b c h1 h2 => keyLe_trans _ _ _ h2 h1)
        (fun a b => keyLe_total (candKey fr (strLower q) b) (candKey fr (strLower q) a))
        (ordered_descriptors reg)
      refine hs.imp ?_
      intro a b h hb
      have hmono := keyLe_fst_mono h
      have hbfst : (candKey fr (strLower q) b).1 = true := by
        simp [candKey, hb]
      have := hmono hbfst
      simpa [candKey] using this

/-- A pair of concrete descriptors for the ordering witness. -/
def descGen : ProviderDescriptor :=
  ⟨"gen", "Generalist", "", 100, ["services"], ["search_services"]⟩

/-- A lower-priority, topically-tagged descriptor for the ordering witness. -/
def descFin : ProviderDescriptor :=
  ⟨"fin", "Finances", "", 50, ["impots"], ["search_services"]⟩

/-- A two-provider registry for the ordering witness. -/
def regW : List (String × ProviderDescriptor) := [("gen", descGen), ("fin", descFin)]

theorem claim4_candidate_ordering_witness :
    (provider_candidates (fun _ _ => 0) regW (some "fin") none = Except.ok [descFin]) ∧
      ∃ l, provider_candidates (fun _ _ => 0) regW none (some "impots") = Except.ok l ∧
        l.Perm (regW.map (fun p => p.2)) ∧
        List.Pairwise (fun a b =>
          keyLe (candKey (fun _ _ => 0) (strLower "impots") b)
            (candKey (fun _ _ => 0) (strLower "impots") a) = true) l ∧
        List.Pairwise (fun a b =>
          60 ≤ coverage_score (fun _ _ => 0) (strLower "impots") b →
            60 ≤ coverage_score (fun _ _ => 0) (strLower "impots") a) l :=
  ⟨(claim4_candidate_ordering (fun _ _ => 0) regW "fin" descFin "impots" none).1
      (by decide) (by decide),
    (claim4_candidate_ordering (fun _ _ => 0) regW "fin" descFin "impots" none).2.2
      (by decide)⟩

/-! ## Search pipeline lemmas (C5, C9) -/

/-- The number of query tokens matching an indexed service (each occurrence
of the service id under a query token counts once, as in the `candidates`
dict accumulation). -/
def matchCount (idx : List (String × List String)) (tokens : List String)
    (sid : String) : Nat :=
  (tokens.map (fun t => (dgetList idx t).count sid)).sum

theorem dlookup_dbump (m : List (String × Nat)) (k k' : String) :
    dlookup (dbump m k) k' =
      if k' = k then some ((dlookup m k').getD 0 + 1) else dlookup m k' := by
  induction m with
  | nil =>
    by_cases h : k' = k
    · subst h; simp [dbump, dlookup]
    · have h' : ¬ k = k' := fun he => h he.symm
      simp [dbump, dlookup, h, h']
  | cons hd tl ih =>
    obtain ⟨k0, v0⟩ := hd
    by_cases h1 : k0 = k
    · subst h1
      by_cases h2 : k0 = k'
      · subst h2
        simp only [dbump, if_pos rfl, dlookup, Option.getD_some]
        simp
      · have hk : ¬ k' = k0 := fun he => h2 he.symm
        simp only [dbump, if_pos rfl, dlookup, h2, if_false, if_neg hk]
    · by_cases h2 : k0 = k'
      · subst h2
        have hk : ¬ k0 = k := h1
        have hk' : ¬ k0 = k := h1
        simp only [dbump, if_neg h1, dlookup, if_pos rfl,
          if_neg (fun he : k0 = k => h1 he)]
        simp
      · simp only [dbump, if_neg h1, dlookup, if_neg h2]
        exact ih

theorem fold_dbump_getD (ids : List String) (m : List (String × Nat)) (k : String) :
    (dlookup (ids.foldl (fun m sid => dbump m sid) m) k).getD 0 =
      (dlookup m k).getD 0 + ids.count k := by
  induction ids generalizing m with
  | nil => simp
  | cons sid rest ih =>
    rw [List.foldl_cons, ih, dlookup_dbump]
    by_cases h : k = sid
    · subst h
      simp [List.count_cons]
      omega
    · have h' : ¬ (sid == k) = true := by simpa using fun he => h he.symm
      simp [h, List.count_cons, h']

theorem buildCandidates_fold_getD (idx : List (String × List String))
    (tokens : List String) (k : String) :
    ∀ m, (dlookup (tokens.foldl
        (fun m t => (dgetList idx t).foldl (fun m sid => dbump m sid) m) m) k).getD 0 =
      (dlookup m k).getD 0 + matchCount idx tokens k := by
  induction tokens with
  | nil => intro m; simp [matchCount]
  | cons t rest ih =>
    intro m
    rw [List.foldl_cons, ih, fold_dbump_getD]
    simp [matchCount]
    omega

theorem buildCandidates_getD (idx : List (String × List String))
    (tokens : List String) (k : String) :
    (dlookup (buildCandidates idx tokens) k).getD 0 = matchCount idx tokens k := by
  have := buildCandidates_fold_getD idx tokens k []
  simpa [buildCandidates, dlookup] using this

theorem dbump_keys (m : List (String × Nat)) (k : String) :
    (dbump m k).map (fun p => p.1) =
      if k ∈ m.map (fun p => p.1) then m.map (fun p => p.1)
      else m.map (fun p => p.1) ++ [k] := by
  induction m with
  | nil => simp [dbump]
  | cons hd tl ih =>
    by_cases h1 : hd.1 = k
    · simp [dbump, h1]
    · have hne : ¬ k = hd.1 := fun he => h1 he.symm
      by_cases h2 : k ∈ tl.map (fun p => p.1)
      · simp [dbump, h1, ih, h2, hne]
      · simp [dbump, h1, ih, h2, hne]

theorem dbump_nodup {m : List (String × Nat)} {k : String}
    (h : (m.map (fun p => p.1)).Nodup) : ((dbump m k).map (fun p => p.1)).Nodup := by
  rw [dbump_keys]
  by_cases hm : k ∈ m.map (fun p => p.1)
  · simpa [hm] using h
  · simp only [hm, if_false]
    rw [List.nodup_append]
    exact ⟨h, List.nodup_singleton k, by simpa using hm⟩

theorem fold_dbump_nodup (ids : List String) {m : List (String × Nat)}
    (h : (m.map (fun p => p.1)).Nodup) :
    (((ids.foldl (fun m sid => dbump m sid) m)).map (fun p => p.1)).Nodup := by
  induction ids generalizing m with
  | nil => exact h
  | cons sid rest ih => exact ih (dbump_nodup h)

theorem buildCandidates_keys_nodup (idx : List (String × List String))
    (tokens : List String) :
    ((buildCandidates idx tokens).map (fun p => p.1)).Nodup := by
  suffices hgen : ∀ m : List (String × Nat), (m.map (fun p => p.1)).Nodup →
      ((tokens.foldl (fun m t => (dgetList idx t).foldl (fun m sid => dbump m sid) m)
        m).map (fun p => p.1)).Nodup by
    exact hgen [] (by simp)
  induction tokens with
  | nil => intro m hm; exact hm
  | cons t rest ih =>
    intro m hm
    exact ih _ (fold_dbump_nodup (dgetList idx t) hm)

theorem dbump_val_pos {m : List (String × Nat)} {k : String}
    (h : ∀ p ∈ m, 1 ≤ p.2) : ∀ p ∈ dbump m k, 1 ≤ p.2 := by
  induction m with
  | nil =>
    intro p hp
    simp only [dbump, List.mem_singleton] at hp
    subst hp
    exact le_refl 1
  | cons hd tl ih =>
    intro p hp
    by_cases h1 : hd.1 = k
    · simp only [dbump, h1, if_true, List.mem_cons] at hp
      rcases hp with hp | hp
      · subst hp; omega
      · exact h p (List.mem_cons_of_mem hd hp)
    · simp only [dbump, h1, if_false, List.mem_cons] at hp
      rcases hp with hp | hp
      · subst hp; exact h hd (by simp)
      · exact ih (fun q hq => h q (List.mem_cons_of_mem hd hq)) p hp

theorem buildCandidates_val_pos (idx : List (String × List String))
    (tokens : List String) : ∀ p ∈ buildCandidates idx tokens, 1 ≤ p.2 := by
  suffices hgen : ∀ m : List (String × Nat), (∀ p ∈ m, 1 ≤ p.2) →
      ∀ p ∈ tokens.foldl
        (fun m t => (dgetList idx t).foldl (fun m sid => dbump m sid) m) m, 1 ≤ p.2 by
    exact hgen [] (by simp)
  induction tokens with
  | nil => intro m hm; exact hm
  | cons t rest ih =>
    intro m hm
    refine ih _ ?_
    suffices hin : ∀ (ids : List String) (m : List (String × Nat)),
        (∀ p ∈ m, 1 ≤ p.2) → ∀ p ∈ ids.foldl (fun m sid => dbump m sid) m, 1 ≤ p.2 by
      exact hin (dgetList idx t) m hm
    intro ids
    induction ids with
    | nil => intro m hm; exact hm
    | cons sid rest2 ih2 => intro m hm; exact ih2 _ (dbump_val_pos hm)

theorem dlookup_of_mem_nodup {κ α : Type} [DecidableEq κ]
    {m : List (κ × α)} {k : κ} {v : α}
    (hnd : (m.map (fun p => p.1)).Nodup) (hm : (k, v) ∈ m) :
    dlookup m k = some v := by
  induction m with
  | nil => simp at hm
  | cons hd tl ih =>
    rw [List.map_cons, List.nodup_cons] at hnd
    rcases List.mem_cons.mp hm with he | he
    · subst he
      simp [dlookup]
    · have hk : ¬ hd.1 = k := by
        intro h1
        exact hnd.1 (h1 ▸ List.mem_map_of_mem (fun p => p.1) he)
      simp only [dlookup, hk, if_false]
      exact ih hnd.2 he

theorem buildCandidates_mem_count (idx : List (String × List String))
    (tokens : List String) {sid : String} {n : Nat}
    (h : (sid, n) ∈ buildCandidates idx tokens) :
    n = matchCount idx tokens sid ∧ 1 ≤ n := by
  have hl := dlookup_of_mem_nodup (buildCandidates_keys_nodup idx tokens) h
  have hg := buildCandidates_getD idx tokens sid
  rw [hl] at hg
  exact ⟨by simpa using hg, buildCandidates_val_pos idx tokens (sid, n) h⟩

theorem takeResults_cons_seen (limit : Int) (sc : ℚ) (s : ServiceSummary)
    (rest : List (ℚ × ServiceSummary)) (seen : List String)
    (acc : List ServiceSummary) (h : s.id ∈ seen) :
    takeResults limit ((sc, s) :: rest) seen acc = takeResults limit rest seen acc := by
  simp only [takeResults, if_pos h]

theorem takeResults_cons_stop (limit : Int) (sc : ℚ) (s : ServiceSummary)
    (rest : List (ℚ × ServiceSummary)) (seen : List String)
    (acc : List ServiceSummary) (h1 : ¬ s.id ∈ seen)
    (h2 : limit ≤ (({ s with score := some sc } :: acc).length : Int)) :
    takeResults limit ((sc, s) :: rest) seen acc =
      ({ s with score := some sc } :: acc).reverse := by
  simp only [takeResults, if_neg h1, if_pos h2]

theorem takeResults_cons_go (limit : Int) (sc : ℚ) (s : ServiceSummary)
    (rest : List (ℚ × ServiceSummary)) (seen : List String)
    (acc : List ServiceSummary) (h1 : ¬ s.id ∈ seen)
    (h2 : ¬ limit ≤ (({ s with score := some sc } :: acc).length : Int)) :
    takeResults limit ((sc, s) :: rest) seen acc =
      takeResults limit rest (s.id :: seen) ({ s with score := some sc } :: acc) := by
  simp only [takeResults, if_neg h1, if_neg h2]

theorem takeResults_sublist (limit : Int) (l : List (ℚ × ServiceSummary))
    (seen : List String) (acc : List ServiceSummary) :
    ∃ l' : List (ℚ × ServiceSummary), l'.Sublist l ∧ takeResults limit l seen acc =
      acc.reverse ++ l'.map (fun p => { p.2 with score := some p.1 }) := by
  induction l generalizing seen acc with
  | nil =>
    refine ⟨[], List.Sublist.refl [], ?_⟩
    simp only [takeResults, List.map_nil, List.append_nil]
  | cons hd rest ih =>
    obtain ⟨sc, s⟩ := hd
    by_cases hseen : s.id ∈ seen
    · obtain ⟨l', hsub, heq⟩ := ih seen acc
      exact ⟨l', hsub.cons (sc, s), by rw [takeResults_cons_seen _ _ _ _ _ _ hseen]; exact heq⟩
    · by_cases hstop : limit ≤ (({ s with score := some sc } :: acc).length : Int)
      · refine ⟨[(sc, s)], by simp, ?_⟩
        rw [takeResults_cons_stop _ _ _ _ _ _ hseen hstop]
        simp
      · obtain ⟨l', hsub, heq⟩ := ih (s.id :: seen) ({ s with score := some sc } :: acc)
        refine ⟨(sc, s) :: l', hsub.cons₂ (sc, s), ?_⟩
        rw [takeResults_cons_go _ _ _ _ _ _ hseen hstop, heq]
        simp

theorem takeResults_nodup (limit : Int) (l : List (ℚ × ServiceSummary))
    (seen : List String) (acc : List ServiceSummary)
    (hs : ∀ i ∈ acc.map (fun s => s.id), i ∈ seen)
    (hnd : (acc.map (fun s => s.id)).Nodup) :
    ((takeResults limit l seen acc).map (fun s => s.id)).Nodup := by
  induction l generalizing seen acc with
  | nil =>
    simp only [takeResults, List.map_reverse, List.nodup_reverse]
    exact hnd
  | cons hd rest ih =>
    obtain ⟨sc, s⟩ := hd
    by_cases hseen : s.id ∈ seen
    · rw [takeResults_cons_seen _ _ _ _ _ _ hseen]
      exact ih seen acc hs hnd
    · have hnotin : ¬ s.id ∈ acc.map (fun x => x.id) := fun hmem => hseen (hs _ hmem)
      by_cases hstop : limit ≤ (({ s with score := some sc } :: acc).length : Int)
      · rw [takeResults_cons_stop _ _ _ _ _ _ hseen hstop]
        simp only [List.map_reverse, List.nodup_reverse, List.map_cons]
        exact List.nodup_cons.mpr ⟨hnotin, hnd⟩
      · rw [takeResults_cons_go _ _ _ _ _ _ hseen hstop]
        refine ih (s.id :: seen) ({ s with score := some sc } :: acc) ?_ ?_
        · intro i hi
          simp only [List.map_cons, List.mem_cons] at hi
          rcases hi with hi | hi
          · simp [hi]
          · exact List.mem_cons_of_mem _ (hs i hi)
        · simp only [List.map_cons]
          exact List.nodup_cons.mpr ⟨hnotin, hnd⟩

theorem takeResults_length (limit : Int) (l : List (ℚ × ServiceSummary))
    (seen : List String) (acc : List ServiceSummary) :
    (takeResults limit l seen acc).length ≤ max limit.toNat (acc.length + 1) := by
  induction l generalizing seen acc with
  | nil =>
    simp only [takeResults, List.length_reverse]
    omega
  | cons hd rest ih =>
    obtain ⟨sc, s⟩ := hd
    by_cases hseen : s.id ∈ seen
    · rw [takeResults_cons_seen _ _ _ _ _ _ hseen]
      exact ih seen acc
    · by_cases hstop : limit ≤ (({ s with score := some sc } :: acc).length : Int)
      · rw [takeResults_cons_stop _ _ _ _ _ _ hseen hstop]
        simp only [List.length_reverse, List.length_cons]
        omega
      · rw [takeResults_cons_go _ _ _ _ _ _ hseen hstop]
        have hb := ih (s.id :: seen) ({ s with score := some sc } :: acc)
        simp only [List.length_cons] at hb hstop ⊢
        omega

theorem takeResults_limit_nonpos (limit : Int) (sc : ℚ) (s : ServiceSummary)
    (rest : List (ℚ × ServiceSummary)) (h : limit ≤ 0) :
    takeResults limit ((sc, s) :: rest) [] [] = [{ s with score := some sc }] := by
  have hns : ¬ s.id ∈ ([] : List String) := by simp
  have hstop : limit ≤
      (({ s with score := some sc } :: ([] : List ServiceSummary)).length : Int) := by
    simp only [List.length_cons, List.length_nil]
    omega
  rw [takeResults_cons_stop _ _ _ _ _ _ hns hstop]
  simp

theorem scoredList_mem_tokens (fr : String → String → ℚ)
    (svcs : List (String × ServiceSummary)) (idx : List (String × List String))
    (q : String) {sc : ℚ} {s : ServiceSummary}
    (hc : buildCandidates idx (tokenise q) ≠ [])
    (h : (sc, s) ∈ scoredList fr svcs idx q) :
    ∃ sid n, (sid, n) ∈ buildCandidates idx (tokenise q) ∧
      dlookup svcs sid = some s ∧
      sc = (n : ℚ) * 10 + fr (strLower q) (strLower s.title) := by
  simp only [scoredList] at h
  rw [if_pos hc] at h
  rw [List.mem_filterMap] at h
  obtain ⟨p, hp, heq⟩ := h
  rw [Option.map_eq_some'] at heq
  obtain ⟨s', hs', hfs⟩ := heq
  rw [Prod.mk.injEq] at hfs
  exact ⟨p.1, p.2, hp, by rw [hs', hfs.2], hfs.1.symm ▸ by rw [hfs.2]⟩

theorem scoredList_mem_fallback (fr : String → String → ℚ)
    (svcs : List (String × ServiceSummary)) (idx : List (String × List String))
    (q : String) {sc : ℚ} {s : ServiceSummary}
    (hc : buildCandidates idx (tokenise q) = [])
    (h : (sc, s) ∈ scoredList fr svcs idx q) :
    s ∈ svcs.map (fun p => p.2) ∧ 40 ≤ fr (strLower q) (strLower s.title) ∧
      sc = fr (strLower q) (strLower s.title) := by
  simp only [scoredList] at h
  rw [if_neg (fun hne => hne hc)] at h
  rw [List.mem_filterMap] at h
  obtain ⟨s', hs', heq⟩ := h
  by_cases h40 : 40 ≤ fr (strLower q) (strLower s'.title)
  · simp only [if_pos h40, Option.some.injEq, Prod.mk.injEq] at heq
    obtain ⟨he1, he2⟩ := heq
    subst he2
    exact ⟨hs', h40, he1.symm⟩
  · simp only [if_neg h40] at heq
    exact absurd heq (by simp)

theorem sortedScored_pairwise (fr : String → String → ℚ)
    (svcs : List (String × ServiceSummary)) (idx : List (String × List String))
    (q : String) :
    List.Pairwise (fun (a b : ℚ × ServiceSummary) => b.1 ≤ a.1)
      (sortedScored fr svcs idx q) := by
  have hs := @List.sorted_mergeSort (ℚ × ServiceSummary)
    (fun a b => decide (b.1 ≤ a.1))
    (fun a b c h1 h2 => by
      simp only [decide_eq_true_eq] at h1 h2 ⊢
      exact le_trans h2 h1)
    (fun a b => by
      simp only [Bool.or_eq_true, decide_eq_true_eq]
      exact le_total b.1 a.1)
    (scoredList fr svcs idx q)
  exact hs.imp (fun h => of_decide_eq_true h)

theorem sortedScored_mem (fr : String → String → ℚ)
    (svcs : List (String × ServiceSummary)) (idx : List (String × List String))
    (q : String) {p : ℚ × ServiceSummary}
    (h : p ∈ sortedScored fr svcs idx q) : p ∈ scoredList fr svcs idx q :=
  (List.mergeSort_perm (scoredList fr svcs idx q) _).mem_iff.mp h

theorem sortedScored_stable (fr : String → String → ℚ)
    (svcs : List (String × ServiceSummary)) (idx : List (String × List String))
    (q : String) (v : ℚ) :
    (sortedScored fr svcs idx q).filter (fun p => decide (p.1 = v)) =
      (scoredList fr svcs idx q).filter (fun p => decide (p.1 = v)) := by
  have htrans : ∀ (a b c : ℚ × ServiceSummary),
      (fun a b => decide (b.1 ≤ a.1)) a b = true →
      (fun a b => decide (b.1 ≤ a.1)) b c = true →
      (fun a b => decide (b.1 ≤ a.1)) a c = true := by
    intro a b c h1 h2
    simp only [decide_eq_true_eq] at h1 h2 ⊢
    exact le_trans h2 h1
  have htotal : ∀ (a b : ℚ × ServiceSummary),
      ((fun a b => decide (b.1 ≤ a.1)) a b || (fun a b => decide (b.1 ≤ a.1)) b a) = true := by
    intro a b
    simp only [Bool.or_eq_true, decide_eq_true_eq]
    exact le_total b.1 a.1
  have hval : ∀ x ∈ (scoredList fr svcs idx q).filter (fun p => decide (p.1 = v)),
      x.1 = v := by
    intro x hx
    simpa using (List.mem_filter.mp hx).2
  have hpw : ((scoredList fr svcs idx q).filter (fun p => decide (p.1 = v))).Pairwise
      (fun a b => (fun a b => decide (b.1 ≤ a.1)) a b = true) := by
    apply List.pairwise_of_forall_mem_list
    intro a ha b hb
    simp only [decide_eq_true_eq]
    rw [hval a ha, hval b hb]
  have hsub : ((scoredList fr svcs idx q).filter (fun p => decide (p.1 = v))).Sublist
      (sortedScored fr svcs idx q) :=
    List.sublist_mergeSort htrans htotal hpw (List.filter_sublist _)
  have hfix : ((scoredList fr svcs idx q).filter (fun p => decide (p.1 = v))).filter
      (fun p => decide (p.1 = v)) =
      (scoredList fr svcs idx q).filter (fun p => decide (p.1 = v)) := by
    rw [List.filter_eq_self]
    intro a ha
    simpa using hval a ha
  have hsub2 : ((scoredList fr svcs idx q).filter (fun p => decide (p.1 = v))).Sublist
      ((sortedScored fr svcs idx q).filter (fun p => decide (p.1 = v))) := by
    have := hsub.filter (fun p => decide (p.1 = v))
    rwa [hfix] at this
  have hperm : ((sortedScored fr svcs idx q).filter (fun p => decide (p.1 = v))).Perm
      ((scoredList fr svcs idx q).filter (fun p => decide (p.1 = v))) :=
    (List.mergeSort_perm (scoredList fr svcs idx q) _).filter _
  exact (hsub2.eq_of_length hperm.length_eq.symm).symm

/-- C5: the search pipeline of `ServiceSearchIndex.search`. An
empty/whitespace query returns the empty list. When at least one query
token matches the inverted index, every returned summary is a copy of a
stored service scored `matchCount*10 + partial-ratio(query, title)` with a
positive match count; when no token matches, every returned summary is a
copy of a catalog service scored by partial-ratio alone, kept only at score
>= 40. Results are sorted by score descending (ties keep first-seen order
by stability of the sort), carry their numeric score, contain no duplicate
ids, and are truncated to the limit (one element minimum, cf. C9). -/
theorem claim5_search_pipeline (fr : String → String → ℚ)
    (svcs : List (String × ServiceSummary)) (idx : List (String × List String))
    (q : String) (limit : Int) :
    (pyStrip q = "" → ServiceSearchIndex.search fr svcs idx q limit = []) ∧
      (buildCandidates idx (tokenise q) ≠ [] →
        ∀ r ∈ ServiceSearchIndex.search fr svcs idx q limit,
          ∃ sid s, dlookup svcs sid = some s ∧
            1 ≤ matchCount idx (tokenise q) sid ∧
            r = { s with score := some ((matchCount idx (tokenise q) sid : ℚ) * 10 +
              fr (strLower q) (strLower s.title)) }) ∧
      (buildCandidates idx (tokenise q) = [] →
        ∀ r ∈ ServiceSearchIndex.search fr svcs idx q limit,
          ∃ s, s ∈ svcs.map (fun p => p.2) ∧
            40 ≤ fr (strLower q) (strLower s.title) ∧
            r = { s with score := some (fr (strLower q) (strLower s.title)) }) ∧
      List.Pairwise (fun a b => b.score.getD 0 ≤ a.score.getD 0)
        (ServiceSearchIndex.search fr svcs idx q limit) ∧
      ((ServiceSearchIndex.search fr svcs idx q limit).map (fun s => s.id)).Nodup ∧
      ((ServiceSearchIndex.search fr svcs idx q limit).length : Int) ≤ max limit 1 ∧
      (∀ v : ℚ, (sortedScored fr svcs idx q).filter (fun p => decide (p.1 = v)) =
        (scoredList fr svcs idx q).filter (fun p => decide (p.1 = v))) := by
  by_cases hq : pyStrip q = ""
  · have hs : ServiceSearchIndex.search fr svcs idx q limit = [] := by
      simp [ServiceSearchIndex.search, hq]
    refine ⟨fun _ => hs, ?_, ?_, ?_, ?_, ?_, ?_⟩
    · intro _ r hr; rw [hs] at hr; simp at hr
    · intro _ r hr; rw [hs] at hr; simp at hr
    · rw [hs]; exact List.Pairwise.nil
    · rw [hs]; simp
    · rw [hs]
      simp
    · exact fun v => sortedScored_stable fr svcs idx q v
  · have hsearch : ServiceSearchIndex.search fr svcs idx q limit =
        takeResults limit (sortedScored fr svcs idx q) [] [] := by
      simp [ServiceSearchIndex.search, hq]
    obtain ⟨l', hsub, heq⟩ := takeResults_sublist limit (sortedScored fr svcs idx q) [] []
    have heq' : ServiceSearchIndex.search fr svcs idx q limit =
        l'.map (fun p => { p.2 with score := some p.1 }) := by
      rw [hsearch, heq]; simp
    have hmem : ∀ r ∈ ServiceSearchIndex.search fr svcs idx q limit,
        ∃ p ∈ scoredList fr svcs idx q, r = { p.2 with score := some p.1 } := by
      intro r hr
      rw [heq', List.mem_map] at hr
      obtain ⟨p, hp, hrp⟩ := hr
      exact ⟨p, sortedScored_mem fr svcs idx q (hsub.subset hp), hrp.symm⟩
    refine ⟨fun h => absurd h hq, ?_, ?_, ?_, ?_, ?_, ?_⟩
    · intro hc r hr
      obtain ⟨⟨sc, s⟩, hps, hrp⟩ := hmem r hr
      obtain ⟨sid, n, hcand, hlook, hsc⟩ := scoredList_mem_tokens fr svcs idx q hc hps
      obtain ⟨hn, hpos⟩ := buildCandidates_mem_count idx (tokenise q) hcand
      refine ⟨sid, s, hlook, hn ▸ hpos, ?_⟩
      rw [hrp, hsc, hn]
    · intro hc r hr
      obtain ⟨⟨sc, s⟩, hps, hrp⟩ := hmem r hr
      obtain ⟨hsvc, h40, hsc⟩ := scoredList_mem_fallback fr svcs idx q hc hps
      exact ⟨s, hsvc, h40, by rw [hrp, hsc]⟩
    · rw [heq']
      rw [List.pairwise_map]
      have hpl' : List.Pairwise (fun (a b : ℚ × ServiceSummary) => b.1 ≤ a.1) l' :=
        (sortedScored_pairwise fr svcs idx q).sublist hsub
      exact hpl'.imp (fun h => h)
    · rw [hsearch]
      exact takeResults_nodup limit _ [] [] (by simp) (by simp)
    · rw [hsearch]
      have hlen := takeResults_length limit (sortedScored fr svcs idx q) [] []
      simp only [List.length_nil, Nat.zero_add] at hlen
      rcases max_cases limit.toNat 1 with ⟨he, hle⟩ | ⟨he, hlt⟩ <;>
        rcases max_cases limit (1 : Int) with ⟨he2, hle2⟩ | ⟨he2, hlt2⟩ <;>
          rw [he] at hlen <;> rw [he2] <;> omega
    · exact fun v => sortedScored_stable fr svcs idx q v

/-- C9: `search` checks the limit only after appending, so with a
non-positive limit and a non-empty scored candidate list it returns exactly
one element — the head of the sorted scored list, i.e. the top-scored
service — rather than an empty or limit-truncated list. -/
theorem claim9_nonpositive_limit (fr : String → String → ℚ)
    (svcs : List (String × ServiceSummary)) (idx : List (String × List String))
    (q : String) (limit : Int) (sc : ℚ) (s : ServiceSummary)
    (rest : List (ℚ × ServiceSummary))
    (hq : ¬ pyStrip q = "") (hlim : limit ≤ 0)
    (hsort : sortedScored fr svcs idx q = (sc, s) :: rest) :
    ServiceSearchIndex.search fr svcs idx q limit = [{ s with score := some sc }] ∧
      (ServiceSearchIndex.search fr svcs idx q limit).length = 1 := by
  have hsearch : ServiceSearchIndex.search fr svcs idx q limit =
      takeResults limit (sortedScored fr svcs idx q) [] [] := by
    simp [ServiceSearchIndex.search, hq]
  rw [hsearch, hsort, takeResults_limit_nonpos _ _ _ _ hlim]
  exact ⟨rfl, rfl⟩

/-- The constant-zero stand-in for the external fuzzy scorer, used by
concrete witnesses. -/
def fr0 : String → String → ℚ := fun _ _ => 0

/-- A concrete indexed service for the search witnesses. -/
def svcW : ServiceSummary := ⟨"s1", "alpha beta", "http://x/s1", "p1", [], none, none⟩

/-- A one-service catalog map for the search witnesses. -/
def svcs0 : List (String × ServiceSummary) := [("s1", svcW)]

/-- The inverted index rebuilt from `svcs0`. -/
def idx0 : List (String × List String) := rebuildIndex svcs0

/-- The token-match score of `svcW` for the query `"alpha"`. -/
def scW : ℚ := ((1 : Nat) : ℚ) * 10 + 0

theorem claim9_nonpositive_limit_witness :
    ServiceSearchIndex.search fr0 svcs0 idx0 "alpha" 0 =
        [{ svcW with score := some scW }] ∧
      (ServiceSearchIndex.search fr0 svcs0 idx0 "alpha" 0).length = 1 :=
  claim9_nonpositive_limit fr0 svcs0 idx0 "alpha" 0 scW svcW []
    (by decide) (by decide)
    (by
      rw [sortedScored, show scoredList fr0 svcs0 idx0 "alpha" = [(scW, svcW)] from rfl]
      simp [List.mergeSort])

theorem claim5_search_pipeline_witness :
    (∀ r ∈ ServiceSearchIndex.search fr0 svcs0 idx0 "alpha" 10,
      ∃ sid s, dlookup svcs0 sid = some s ∧
        1 ≤ matchCount idx0 (tokenise "alpha") sid ∧
        r = { s with score := some ((matchCount idx0 (tokenise "alpha") sid : ℚ) * 10 +
          fr0 (strLower "alpha") (strLower s.title)) }) ∧
      ((ServiceSearchIndex.search fr0 svcs0 idx0 "alpha" 10).map (fun s => s.id)).Nodup ∧
      ((ServiceSearchIndex.search fr0 svcs0 idx0 "alpha" 10).length : Int) ≤ max 10 1 :=
  ⟨(claim5_search_pipeline fr0 svcs0 idx0 "alpha" 10).2.1 (by decide),
    (claim5_search_pipeline fr0 svcs0 idx0 "alpha" 10).2.2.2.2.1,
    (claim5_search_pipeline fr0 svcs0 idx0 "alpha" 10).2.2.2.2.2.1⟩

end SPB
